import Mathlib

/-!
Verification of the geocoding-service provider-orchestration and
review-aggregation core, shallowly embedded from the TypeScript source.

Part 1: the geocode route (`src/app/api/v1/geocode/route.ts`) and the
census provider's US-address heuristic (`CensusProvider.isUSAddress`).
-/

namespace GeoSvc

/-- Canonical error payload: `{ code, message }`. -/
structure ErrorInfo where
  code : String
  message : String
deriving DecidableEq, Repr

/-- Geographic components record of a `GeocodeResult` (all optional). -/
structure GeoComponents where
  street : Option String := none
  city : Option String := none
  state : Option String := none
  country : Option String := none
  postalCode : Option String := none
deriving DecidableEq, Repr

/-- One matched location, as in `types/geocoding.ts` (`results` element). -/
structure GeocodeResult where
  latitude : Rat
  longitude : Rat
  formattedAddress : String
  confidence : Rat
  components : GeoComponents
deriving DecidableEq, Repr

/-- The canonical geocode envelope `GeocodeResponse`. -/
structure GeocodeOutcome where
  success : Bool
  provider : String
  results : List GeocodeResult
  error : Option ErrorInfo := none
deriving DecidableEq, Repr

/--
One registered provider as the route loop observes it: its declared
`name`, the boolean its `isAvailable` probe resolves to, and the
`GeocodeOutcome` its `geocode` call resolves to (adapters catch their own
exceptions and always resolve with an outcome).
-/
structure ProviderSim where
  name : String
  available : Bool
  outcome : GeocodeOutcome
deriving DecidableEq, Repr

/-- Names of the registered providers, in declared order
(`const providers = [new CensusProvider(), new GoogleProvider()]`). -/
def registeredProviderNames : List String := ["census", "google"]

/-- The generic error returned when every provider is exhausted. -/
def allProvidersFailedError : ErrorInfo :=
  ⟨"ALL_PROVIDERS_FAILED", "All geocoding providers failed or returned no results"⟩

/--
The fallback loop of `POST` (route.ts lines 60-111). Besides the
outcome it returns the trace of providers whose `geocode` was invoked.
`lastError` is the `let lastError = null` accumulator.
-/
def tryProvidersLoop : List ProviderSim → Option ErrorInfo → GeocodeOutcome × List String
  | [], lastError =>
    (⟨false, "multiple", [], some (lastError.getD allProvidersFailedError)⟩, [])
  | p :: ps, lastError =>
    if !p.available then tryProvidersLoop ps lastError
    else if p.outcome.success && !p.outcome.results.isEmpty then (p.outcome, [p.name])
    else if p.outcome.success then
      let r := tryProvidersLoop ps lastError
      (r.1, p.name :: r.2)
    else
      let r := tryProvidersLoop ps p.outcome.error
      (r.1, p.name :: r.2)

/-- Route-level responses distinguishable at the HTTP layer. -/
inductive RouteResponse where
  | providerNotFound
  | providerUnavailable
  | ok (o : GeocodeOutcome)
deriving DecidableEq, Repr

/--
The provider-dispatch part of `POST` (route.ts lines 36-111), after
auth and schema validation. Returns the response together with the list
of provider names whose `geocode` was invoked.
-/
def handleGeocodePost (preferredProvider : Option String) (ps : List ProviderSim) :
    RouteResponse × List String :=
  match preferredProvider with
  | some name =>
    match ps.find? (fun p => p.name == name) with
    | none => (.providerNotFound, [])
    | some p =>
      if !p.available then (.providerUnavailable, [])
      else (.ok p.outcome, [p.name])
  | none =>
    let r := tryProvidersLoop ps none
    (.ok r.1, r.2)

/-! ### CensusProvider.isUSAddress (providers/census.ts) -/

/-- Model of `address.toUpperCase()` at the character level. -/
def upperChars (s : String) : List Char := s.data.map Char.toUpper

/-- JavaScript regex word character: `[A-Za-z0-9_]`. -/
def isWordChar (c : Char) : Bool := c.isAlphanum || c == '_'

/-- The pattern occurs at position `i` of `l`. -/
def matchesAt (l pat : List Char) (i : Nat) : Bool :=
  (l.drop i).take pat.length == pat

/-- Model of `String.prototype.includes`: the pattern occurs somewhere in `l`. -/
def containsSub (l pat : List Char) : Bool :=
  (List.range (l.length + 1)).any fun i => matchesAt l pat i

/-- Word boundary `\b` immediately before position `i` (next char is a word char). -/
def boundaryBefore (l : List Char) (i : Nat) : Bool :=
  decide (i = 0) || !isWordChar (l.getD (i - 1) ' ')

/-- Word boundary `\b` immediately after position `j - 1` (previous char is a word char). -/
def boundaryAfter (l : List Char) (j : Nat) : Bool :=
  !isWordChar (l.getD j ' ')

/-- A word-bounded occurrence of the (alphanumeric) pattern: `\bPAT\b`. -/
def hasBoundedMatch (l pat : List Char) : Bool :=
  (List.range (l.length + 1)).any fun i =>
    matchesAt l pat i && boundaryBefore l i && boundaryAfter l (i + pat.length)

/-- Exactly `len` decimal digits starting at position `i`. -/
def digitsAt (l : List Char) (i len : Nat) : Bool :=
  decide (i + len ≤ l.length) && ((l.drop i).take len).all Char.isDigit

/-- The zip regex `\b\d{5}(-\d{4})?\b` matches somewhere in `l`. -/
def hasZipMatch (l : List Char) : Bool :=
  (List.range (l.length + 1)).any fun i =>
    boundaryBefore l i && digitsAt l i 5 &&
      ((l.getD (i + 5) ' ' == '-' && digitsAt l (i + 6) 4 && boundaryAfter l (i + 10)) ||
        boundaryAfter l (i + 5))

/-- US state abbreviations tested with word boundaries. -/
def usStates : List String :=
  ["AL", "AK", "AZ", "AR", "CA", "CO", "CT", "DE", "FL", "GA",
   "HI", "ID", "IL", "IN", "IA", "KS", "KY", "LA", "ME", "MD",
   "MA", "MI", "MN", "MS", "MO", "MT", "NE", "NV", "NH", "NJ",
   "NM", "NY", "NC", "ND", "OH", "OK", "OR", "PA", "RI", "SC",
   "SD", "TN", "TX", "UT", "VT", "VA", "WA", "WV", "WI", "WY",
   "DC", "PR"]

/-- Common US format indicator tokens, tested by substring containment. -/
def usIndicators : List String :=
  ["USA", "US", "UNITED STATES",
   "STREET", "AVENUE", "BOULEVARD", "ROAD", "LANE", "DRIVE",
   "ST", "AVE", "BLVD", "RD", "LN", "DR"]

/-- Non-US country tokens, tested by substring containment. -/
def nonUSCountryTokens : List String :=
  ["CANADA", "MEXICO", "UK", "ENGLAND", "FRANCE", "GERMANY"]

/-- Does a US state abbreviation occur word-bounded in the uppercased address? -/
def stateAbbrevMatch (address : String) : Bool :=
  usStates.any fun st => hasBoundedMatch (upperChars address) st.data

/-- Does a US indicator token occur as a substring of the uppercased address? -/
def indicatorMatch (address : String) : Bool :=
  usIndicators.any fun ind => containsSub (upperChars address) ind.data

/-- Does a non-US country token occur as a substring of the uppercased address? -/
def nonUSTokenMatch (address : String) : Bool :=
  nonUSCountryTokens.any fun c => containsSub (upperChars address) c.data

/-- Embedding of `CensusProvider.isUSAddress` (census.ts lines 126-176). -/
def isUSAddress (address : String) : Bool :=
  if stateAbbrevMatch address then true
  else if hasZipMatch address.data then true
  else if indicatorMatch address then true
  else if nonUSTokenMatch address then false
  else true

/-- The short-circuit failure returned for a non-US address. -/
def censusNonUSError : ErrorInfo :=
  ⟨"NON_US_ADDRESS", "Census geocoder only supports US addresses"⟩

/--
The pre-network guard of `CensusProvider.geocode` (census.ts lines
25-36): `some o` means geocode returns `o` without calling the upstream,
`none` means the upstream request proceeds.
-/
def censusPrefilter (address : String) : Option GeocodeOutcome :=
  if !isUSAddress address then
    some ⟨false, "census", [], some censusNonUSError⟩
  else none

/-! ### Characterization of the fallback loop -/

/-- A provider outcome the loop accepts: available, successful and nonempty. -/
def acceptsOutcome (p : ProviderSim) : Bool :=
  p.available && p.outcome.success && !p.outcome.results.isEmpty

/-- The `lastError` accumulator the loop holds after processing `ps`,
having started from `acc`. -/
def finalLoopError (ps : List ProviderSim) (acc : Option ErrorInfo) : Option ErrorInfo :=
  match (ps.filter fun p => p.available && !p.outcome.success).getLast? with
  | some p => p.outcome.error
  | none => acc

/-- The error recorded last by the loop: the `error` field of the last
available provider whose outcome was a failure. -/
def recordedLastError (ps : List ProviderSim) : Option ErrorInfo :=
  finalLoopError ps none

theorem finalLoopError_cons_skip (q : ProviderSim) (ps : List ProviderSim)
    (acc : Option ErrorInfo) (h : (q.available && !q.outcome.success) = false) :
    finalLoopError (q :: ps) acc = finalLoopError ps acc := by
  unfold finalLoopError
  rw [List.filter_cons, if_neg (by simp [h])]

theorem finalLoopError_cons_fail (q : ProviderSim) (ps : List ProviderSim)
    (acc : Option ErrorInfo) (h : (q.available && !q.outcome.success) = true) :
    finalLoopError (q :: ps) acc = finalLoopError ps q.outcome.error := by
  unfold finalLoopError
  rw [List.filter_cons, if_pos (by simp_all)]
  cases hfl : ps.filter (fun p => p.available && !p.outcome.success) with
  | nil => simp
  | cons x xs =>
    rw [List.getLast?_cons_cons]
    cases h2 : (x :: xs).getLast? with
    | none => simp at h2
    | some r => rfl

theorem tryProvidersLoop_found (ps : List ProviderSim) (acc : Option ErrorInfo)
    (p : ProviderSim) (h : ps.find? acceptsOutcome = some p) :
    (tryProvidersLoop ps acc).1 = p.outcome := by
  induction ps generalizing acc with
  | nil => simp at h
  | cons q ps ih =>
    by_cases hq : acceptsOutcome q
    · rw [List.find?_cons_of_pos _ hq] at h
      obtain rfl : q = p := by simpa using h
      obtain ⟨⟨ha, hs⟩, hr⟩ : (q.available = true ∧ q.outcome.success = true) ∧
          ¬q.outcome.results = [] := by simpa [acceptsOutcome] using hq
      have h2 : (q.outcome.success && !q.outcome.results.isEmpty) = true := by
        simp [hs, hr]
      simp [tryProvidersLoop, ha, h2]
    · rw [List.find?_cons_of_neg _ hq] at h
      unfold tryProvidersLoop
      by_cases hav : q.available
      · by_cases hsu : q.outcome.success
        · have hne : q.outcome.results.isEmpty = true := by
            by_contra hne
            exact hq (by simp [acceptsOutcome, hav, hsu, hne])
          simp [hav, hsu, hne, ih _ h]
        · simp [hav, hsu, ih _ h]
      · simp [hav, ih _ h]

theorem tryProvidersLoop_exhausted (ps : List ProviderSim) (acc : Option ErrorInfo)
    (h : ps.find? acceptsOutcome = none) :
    (tryProvidersLoop ps acc).1 =
      ⟨false, "multiple", [],
        some ((finalLoopError ps acc).getD allProvidersFailedError)⟩ := by
  induction ps generalizing acc with
  | nil => simp [tryProvidersLoop, finalLoopError]
  | cons q ps ih =>
    by_cases hq : acceptsOutcome q
    · rw [List.find?_cons_of_pos _ hq] at h
      simp at h
    · rw [List.find?_cons_of_neg _ hq] at h
      unfold tryProvidersLoop
      by_cases hav : q.available
      · by_cases hsu : q.outcome.success
        · have hne : q.outcome.results.isEmpty = true := by
            by_contra hne
            exact hq (by simp [acceptsOutcome, hav, hsu, hne])
          rw [finalLoopError_cons_skip q ps acc (by simp [hsu])]
          simp [hav, hsu, hne, ih _ h]
        · rw [finalLoopError_cons_fail q ps acc (by simp [hav, hsu])]
          simp only [hav, Bool.not_true, ite_false, Bool.not_false, ite_true]
          have hsu' : q.outcome.success = false := by simpa using hsu
          simp [hsu', ih _ h]
      · rw [finalLoopError_cons_skip q ps acc (by simp [hav])]
        simp [hav, ih _ h]

/--
C1: with no explicit provider the route tries the registered adapters
(census first, then google) in order, skipping unavailable ones; the
first available adapter with a successful nonempty outcome is returned
unchanged; successful-empty and failure outcomes move on to the next
adapter (failures recording their error); and on exhaustion the response
is success=false, provider="multiple", no results, carrying the last
recorded error or the generic all-providers-failed error.
-/
theorem geocode_fallback_characterization (ps : List ProviderSim) :
    registeredProviderNames = ["census", "google"] ∧
    (∀ p, ps.find? acceptsOutcome = some p →
      handleGeocodePost none ps = (.ok p.outcome, (tryProvidersLoop ps none).2)) ∧
    (ps.find? acceptsOutcome = none →
      handleGeocodePost none ps =
        (.ok ⟨false, "multiple", [],
          some ((recordedLastError ps).getD allProvidersFailedError)⟩,
          (tryProvidersLoop ps none).2)) := by
  refine ⟨rfl, ?_, ?_⟩
  · intro p hp
    simp [handleGeocodePost, tryProvidersLoop_found ps none p hp]
  · intro hp
    have h := tryProvidersLoop_exhausted ps none hp
    simp [handleGeocodePost, h, recordedLastError]

/-- Demo fixture: census unavailable, google succeeding with one result. -/
def demoResult : GeocodeResult :=
  ⟨1, 2, "X", 1, {}⟩

def demoGoogleOutcome : GeocodeOutcome :=
  ⟨true, "google", [demoResult], none⟩

def demoProviders : List ProviderSim :=
  [⟨"census", false, ⟨true, "census", [], none⟩⟩,
   ⟨"google", true, demoGoogleOutcome⟩]

/-- Witness for C1 at a concrete provider list. -/
theorem geocode_fallback_characterization_witness :
    handleGeocodePost none demoProviders =
      (.ok demoGoogleOutcome, (tryProvidersLoop demoProviders none).2) :=
  (geocode_fallback_characterization demoProviders).2.1
    ⟨"google", true, demoGoogleOutcome⟩ (by decide)

/--
C2: with an explicit provider name only the named adapter is ever
invoked: an unknown name yields the provider-not-found response with no
adapter invoked, and when the named adapter is found and available its
outcome — success or failure — is returned as-is with no fallback.
-/
theorem explicit_provider_no_fallback (name : String) (ps : List ProviderSim) :
    (∀ n, n ∈ (handleGeocodePost (some name) ps).2 → n = name) ∧
    (ps.find? (fun p => p.name == name) = none →
      handleGeocodePost (some name) ps = (.providerNotFound, [])) ∧
    (∀ p, ps.find? (fun p => p.name == name) = some p → p.available = true →
      handleGeocodePost (some name) ps = (.ok p.outcome, [name])) := by
  refine ⟨?_, ?_, ?_⟩
  · intro n hn
    unfold handleGeocodePost at hn
    cases hf : ps.find? (fun p => p.name == name) with
    | none => simp [hf] at hn
    | some p =>
      have hpn : p.name = name := by
        have := List.find?_some hf
        simpa using this
      simp only [hf] at hn
      by_cases hav : p.available
      · simp [hav] at hn; simp [hn, hpn]
      · simp [hav] at hn
  · intro hf
    simp [handleGeocodePost, hf]
  · intro p hf hav
    have hpn : p.name = name := by
      have := List.find?_some hf
      simpa using this
    simp [handleGeocodePost, hf, hav, hpn]

/-- Demo fixture: the census adapter rejecting a non-US address. -/
def demoCensusFailure : GeocodeOutcome :=
  ⟨false, "census", [], some censusNonUSError⟩

def demoProvidersExplicit : List ProviderSim :=
  [⟨"census", true, demoCensusFailure⟩,
   ⟨"google", true, demoGoogleOutcome⟩]

/-- Witness for C2: pinning "census" returns its non-US failure as-is,
with no other provider invoked. -/
theorem explicit_provider_no_fallback_witness :
    handleGeocodePost (some "census") demoProvidersExplicit =
      (.ok demoCensusFailure, ["census"]) :=
  (explicit_provider_no_fallback "census" demoProvidersExplicit).2.2
    ⟨"census", true, demoCensusFailure⟩ (by decide) (by decide)

/--
C3 counterexample: "10 Downing Street, London, UK" is classified as a US
address by the heuristic (the indicator substring "STREET" matches), so
the census adapter does not short-circuit with a non-US failure.
-/
theorem downing_street_counterexample :
    isUSAddress "10 Downing Street, London, UK" = true ∧
    censusPrefilter "10 Downing Street, London, UK" = none := by
  constructor
  · decide
  · decide

/--
C3 amended: for "10 Downing Street, London, UK" no state abbreviation or
zip pattern matches, but the US street-suffix indicator "STREET" matches
by substring containment before the non-US country check is reached, so
even though the non-US token "UK" is present the address is classified
as US and the census adapter proceeds to call its upstream instead of
short-circuiting.
-/
theorem downing_street_amended :
    stateAbbrevMatch "10 Downing Street, London, UK" = false ∧
    hasZipMatch ("10 Downing Street, London, UK" : String).data = false ∧
    containsSub (upperChars "10 Downing Street, London, UK") "STREET".data = true ∧
    indicatorMatch "10 Downing Street, London, UK" = true ∧
    nonUSTokenMatch "10 Downing Street, London, UK" = true ∧
    isUSAddress "10 Downing Street, London, UK" = true ∧
    censusPrefilter "10 Downing Street, London, UK" = none := by
  refine ⟨by decide, by decide, by decide, by decide, by decide, by decide, by decide⟩

/--
C10: the heuristic's US-indicator tokens are matched by substring
containment on the uppercased address, so any address containing "US",
"ST", "DR", "RD", "LN" or "AVE" anywhere — even inside "AUSTRALIA" or
"STRASSE" — is classified as US; the non-US country-token check is
reached only when no state abbreviation, zip pattern or indicator
matched, in which case the answer is the negation of the non-US token
check (so ambiguous input with no match at all defaults to US).
-/
theorem indicator_substring_classification :
    (∀ (addr t : String), t ∈ (["US", "ST", "DR", "RD", "LN", "AVE"] : List String) →
      containsSub (upperChars addr) t.data = true → isUSAddress addr = true) ∧
    isUSAddress "Sydney, Australia" = true ∧
    isUSAddress "Hauptstrasse 1" = true ∧
    (∀ addr : String, stateAbbrevMatch addr = false → hasZipMatch addr.data = false →
      indicatorMatch addr = false → isUSAddress addr = !nonUSTokenMatch addr) := by
  refine ⟨?_, by decide, by decide, ?_⟩
  · intro addr t ht hc
    have hmem : t ∈ usIndicators := by
      simp only [List.mem_cons, List.not_mem_nil, or_false] at ht
      rcases ht with rfl | rfl | rfl | rfl | rfl | rfl <;> decide
    have hind : indicatorMatch addr = true :=
      List.any_eq_true.mpr ⟨t, hmem, hc⟩
    unfold isUSAddress
    by_cases h1 : stateAbbrevMatch addr
    · simp [h1]
    · by_cases h2 : hasZipMatch addr.data
      · simp [h1, h2]
      · simp [h1, h2, hind]
  · intro addr h1 h2 h3
    simp only [isUSAddress, h1, h2, h3, ite_false, Bool.false_eq_true]
    cases h4 : nonUSTokenMatch addr <;> simp [h4]

/-- Witness for C10 at concrete addresses: "Strasse" forces a US
classification via the "ST" substring; an address with no US cue and a
non-US token is classified non-US through the final country check. -/
theorem indicator_substring_classification_witness :
    isUSAddress "123 Fake Strasse" = true ∧ isUSAddress "Somewhere, France" = false := by
  constructor
  · exact indicator_substring_classification.1 "123 Fake Strasse" "ST"
      (by decide) (by decide)
  · have h := indicator_substring_classification.2.2.2 "Somewhere, France"
      (by decide) (by decide) (by decide)
    rw [h]; decide

/-!
Part 2: the pagination-cursor pipeline. Tokens are produced by
`Buffer.from(JSON.stringify(o)).toString('base64')` and read back by
`JSON.parse(Buffer.from(t, 'base64').toString('utf-8'))` inside a
try/catch. We model JSON values, a compact `JSON.stringify`, a total
`JSON.parse` (throw becomes `none`), UTF-8 and forgiving base64.

Modelling notes: JSON numbers are restricted to the integer grammar
(every number the service writes into a token is an integer; a token
holding a fractional or exponent-form number is treated as unparseable
instead of as a JS double), and JS strings that are not scalar-value
sequences (lone surrogates) are approximated by U+FFFD.
-/

/-- A parsed JSON value. Objects keep their fields in written order. -/
inductive Json where
  | null
  | bool (b : Bool)
  | num (n : Int)
  | str (s : String)
  | arr (elems : List Json)
  | obj (fields : List (String × Json))

mutual

/-- Structural equality of JSON values. -/
def Json.beq : Json → Json → Bool
  | .null, .null => true
  | .bool a, .bool b => a == b
  | .num a, .num b => a == b
  | .str a, .str b => a == b
  | .arr a, .arr b => Json.beqList a b
  | .obj a, .obj b => Json.beqFields a b
  | _, _ => false

/-- Structural equality of JSON value lists. -/
def Json.beqList : List Json → List Json → Bool
  | a :: as, b :: bs => Json.beq a b && Json.beqList as bs
  | [], [] => true
  | _, _ => false

/-- Structural equality of JSON field lists. -/
def Json.beqFields : List (String × Json) → List (String × Json) → Bool
  | (ka, va) :: fs, (kb, vb) :: gs => ka == kb && Json.beq va vb && Json.beqFields fs gs
  | [], [] => true
  | _, _ => false

end

mutual

theorem Json.beq_iff_eq : ∀ a b : Json, Json.beq a b = true ↔ a = b
  | .null, .null => by simp [Json.beq]
  | .bool _, .bool _ => by simp [Json.beq]
  | .num _, .num _ => by simp [Json.beq]
  | .str _, .str _ => by simp [Json.beq]
  | .arr x, .arr y => by simp [Json.beq, Json.beqList_iff_eq x y]
  | .obj x, .obj y => by simp [Json.beq, Json.beqFields_iff_eq x y]
  | .null, .bool _ | .null, .num _ | .null, .str _ | .null, .arr _ | .null, .obj _
  | .bool _, .null | .bool _, .num _ | .bool _, .str _ | .bool _, .arr _ | .bool _, .obj _
  | .num _, .null | .num _, .bool _ | .num _, .str _ | .num _, .arr _ | .num _, .obj _
  | .str _, .null | .str _, .bool _ | .str _, .num _ | .str _, .arr _ | .str _, .obj _
  | .arr _, .null | .arr _, .bool _ | .arr _, .num _ | .arr _, .str _ | .arr _, .obj _
  | .obj _, .null | .obj _, .bool _ | .obj _, .num _ | .obj _, .str _ | .obj _, .arr _ => by
    simp [Json.beq]

theorem Json.beqList_iff_eq : ∀ xs ys : List Json, Json.beqList xs ys = true ↔ xs = ys
  | a :: as, b :: bs => by
    simp [Json.beqList, Json.beq_iff_eq a b, Json.beqList_iff_eq as bs]
  | [], [] => by simp [Json.beqList]
  | [], _ :: _ => by simp [Json.beqList]
  | _ :: _, [] => by simp [Json.beqList]

theorem Json.beqFields_iff_eq :
    ∀ xs ys : List (String × Json), Json.beqFields xs ys = true ↔ xs = ys
  | (ka, va) :: fs, (kb, vb) :: gs => by
    simp [Json.beqFields, Json.beq_iff_eq va vb, Json.beqFields_iff_eq fs gs]
  | [], [] => by simp [Json.beqFields]
  | [], _ :: _ => by simp [Json.beqFields]
  | _ :: _, [] => by simp [Json.beqFields]

end

instance : DecidableEq Json := fun a b =>
  decidable_of_iff (Json.beq a b = true) (Json.beq_iff_eq a b)

/-- JavaScript truthiness of a parsed JSON value. -/
def Json.truthy : Json → Bool
  | .null => false
  | .bool b => b
  | .num n => n != 0
  | .str s => s != ""
  | .arr _ => true
  | .obj _ => true

/-- JavaScript property access `j.k` on a parsed JSON value: `none` is
`undefined`. Objects take the last binding of a repeated key, as
`JSON.parse` does. -/
def Json.getProp (j : Json) (k : String) : Option Json :=
  match j with
  | .obj fields => fields.reverse.lookup k
  | _ => none

/-! ### JSON.stringify (compact rendering, as Node emits tokens) -/

/-- Decimal digit character for `n < 10`. -/
def digitChar (n : Nat) : Char := Char.ofNat (48 + n)

/-- Lowercase hexadecimal digit character for `n < 16`. -/
def hexChar (n : Nat) : Char :=
  if n < 10 then Char.ofNat (48 + n) else Char.ofNat (87 + n)

/-- Decimal digits of a natural number, most significant first
(fuel-indexed so that it reduces definitionally). -/
def natCharsFuel : Nat → Nat → List Char
  | 0, _ => []
  | fuel + 1, n =>
    if n < 10 then [digitChar n]
    else natCharsFuel fuel (n / 10) ++ [digitChar (n % 10)]

/-- Decimal digits of a natural number, most significant first. -/
def natChars (n : Nat) : List Char := natCharsFuel (n + 1) n

/-- Decimal rendering of an integer, as `JSON.stringify` prints it. -/
def intChars (n : Int) : List Char :=
  if n < 0 then '-' :: natChars n.natAbs else natChars n.toNat

/-- Escaping of one string character, as `JSON.stringify` emits it. -/
def escChar (c : Char) : List Char :=
  if c = '"' then ['\\', '"']
  else if c = '\\' then ['\\', '\\']
  else if c = Char.ofNat 8 then ['\\', 'b']
  else if c = Char.ofNat 9 then ['\\', 't']
  else if c = Char.ofNat 10 then ['\\', 'n']
  else if c = Char.ofNat 12 then ['\\', 'f']
  else if c = Char.ofNat 13 then ['\\', 'r']
  else if c.toNat < 32 then
    ['\\', 'u', '0', '0', hexChar (c.toNat / 16), hexChar (c.toNat % 16)]
  else [c]

/-- Escaped body of a JSON string literal. -/
def escChars : List Char → List Char
  | [] => []
  | c :: cs => escChar c ++ escChars cs

/-- A JSON string literal with its quotes. -/
def renderString (s : String) : List Char :=
  '"' :: (escChars s.data ++ ['"'])

mutual

/-- Compact rendering of a JSON value (`JSON.stringify` with no spacing). -/
def Json.render : Json → List Char
  | .null => "null".data
  | .bool b => if b then "true".data else "false".data
  | .num n => intChars n
  | .str s => renderString s
  | .arr es => '[' :: (Json.renderElems es ++ [']'])
  | .obj fs => '{' :: (Json.renderFields fs ++ ['}'])

/-- Comma-separated renderings of array elements. -/
def Json.renderElems : List Json → List Char
  | [] => []
  | [x] => Json.render x
  | x :: y :: xs => Json.render x ++ ',' :: Json.renderElems (y :: xs)

/-- Comma-separated renderings of object fields. -/
def Json.renderFields : List (String × Json) → List Char
  | [] => []
  | [(k, v)] => renderString k ++ ':' :: Json.render v
  | (k, v) :: f :: fs => renderString k ++ ':' :: Json.render v ++ ',' :: Json.renderFields (f :: fs)

end

/-! ### JSON.parse (total: a throw is `none`) -/

/-- The replacement character standing in for JS strings that are not
scalar-value sequences. -/
def replacementChar : Char := Char.ofNat 0xFFFD

/-- JSON insignificant whitespace. -/
def isJsonWs (c : Char) : Bool :=
  c == ' ' || c == Char.ofNat 9 || c == Char.ofNat 10 || c == Char.ofNat 13

/-- Drops leading JSON whitespace. -/
def skipWs : List Char → List Char
  | [] => []
  | c :: cs => if isJsonWs c then skipWs cs else c :: cs

/-- Value of a hexadecimal digit character. -/
def hexVal (c : Char) : Option Nat :=
  if 48 ≤ c.toNat ∧ c.toNat ≤ 57 then some (c.toNat - 48)
  else if 97 ≤ c.toNat ∧ c.toNat ≤ 102 then some (c.toNat - 87)
  else if 65 ≤ c.toNat ∧ c.toNat ≤ 70 then some (c.toNat - 55)
  else none

/-- Recognizes a low-surrogate escape `\uDC00`..`\uDFFF` at the head of
the input, returning its value and the input after it. -/
def lowSurrogateSplit : List Char → Option (Nat × List Char)
  | '\\' :: 'u' :: g1 :: g2 :: g3 :: g4 :: cs =>
    match hexVal g1, hexVal g2, hexVal g3, hexVal g4 with
    | some a, some b, some c, some d =>
      let m := ((a * 16 + b) * 16 + c) * 16 + d
      if 0xDC00 ≤ m ∧ m < 0xE000 then some (m, cs) else none
    | _, _, _, _ => none
  | _ => none

theorem lowSurrogateSplit_length {cs : List Char} {r : Nat × List Char}
    (h : lowSurrogateSplit cs = some r) : r.2.length + 6 = cs.length := by
  unfold lowSurrogateSplit at h
  split at h
  · split at h
    · dsimp only at h
      split at h
      · cases h; simp
      · cases h
    · cases h
  · cases h

/-- Body of a JSON string literal after the opening quote: returns the
decoded characters and the input after the closing quote. Surrogate
pairs written as two escapes are combined; a lone surrogate becomes
`replacementChar`. -/
def parseStringBody : Nat → List Char → Option (List Char × List Char)
  | 0, _ => none
  | _ + 1, [] => none
  | fuel + 1, c :: cs =>
    if c = '"' then some ([], cs)
    else if c = '\\' then
      match cs with
      | [] => none
      | e :: cs' =>
        if e = '"' then (parseStringBody fuel cs').map fun r => ('"' :: r.1, r.2)
        else if e = '\\' then (parseStringBody fuel cs').map fun r => ('\\' :: r.1, r.2)
        else if e = '/' then (parseStringBody fuel cs').map fun r => ('/' :: r.1, r.2)
        else if e = 'b' then (parseStringBody fuel cs').map fun r => (Char.ofNat 8 :: r.1, r.2)
        else if e = 'f' then (parseStringBody fuel cs').map fun r => (Char.ofNat 12 :: r.1, r.2)
        else if e = 'n' then (parseStringBody fuel cs').map fun r => (Char.ofNat 10 :: r.1, r.2)
        else if e = 'r' then (parseStringBody fuel cs').map fun r => (Char.ofNat 13 :: r.1, r.2)
        else if e = 't' then (parseStringBody fuel cs').map fun r => (Char.ofNat 9 :: r.1, r.2)
        else if e = 'u' then
          match cs' with
          | h1 :: h2 :: h3 :: h4 :: cs'' =>
            match hexVal h1, hexVal h2, hexVal h3, hexVal h4 with
            | some a, some b, some c2, some d =>
              let n := ((a * 16 + b) * 16 + c2) * 16 + d
              if 0xD800 ≤ n ∧ n < 0xDC00 then
                match lowSurrogateSplit cs'' with
                | some mc =>
                  (parseStringBody fuel mc.2).map fun r =>
                    (Char.ofNat (0x10000 + (n - 0xD800) * 1024 + (mc.1 - 0xDC00)) :: r.1, r.2)
                | none => (parseStringBody fuel cs'').map fun r => (replacementChar :: r.1, r.2)
              else if 0xDC00 ≤ n ∧ n < 0xE000 then
                (parseStringBody fuel cs'').map fun r => (replacementChar :: r.1, r.2)
              else
                (parseStringBody fuel cs'').map fun r => (Char.ofNat n :: r.1, r.2)
            | _, _, _, _ => none
          | _ => none
        else none
    else if c.toNat < 32 then none
    else (parseStringBody fuel cs).map fun r => (c :: r.1, r.2)

/-- Splits a leading run of decimal digits. -/
def parseDigits : List Char → List Char × List Char
  | [] => ([], [])
  | c :: cs =>
    if c.isDigit then
      let r := parseDigits cs
      (c :: r.1, r.2)
    else ([], c :: cs)

/-- Value of a digit run, most significant first. -/
def digitsToNat (ds : List Char) : Nat :=
  ds.foldl (fun a c => a * 10 + (c.toNat - 48)) 0

/-- Natural-number part of a JSON number (integer grammar; a leading
zero, a fraction or an exponent makes the value unparseable). -/
def parseNatPart (cs : List Char) : Option (Nat × List Char) :=
  let p := parseDigits cs
  if p.1.isEmpty then none
  else if p.1.head? = some '0' ∧ 1 < p.1.length then none
  else if p.2.head? = some '.' ∨ p.2.head? = some 'e' ∨ p.2.head? = some 'E' then none
  else some (digitsToNat p.1, p.2)

/-- A JSON number in the integer grammar. -/
def parseNumber (cs : List Char) : Option (Int × List Char) :=
  match cs with
  | '-' :: cs' => (parseNatPart cs').map fun r => (-(r.1 : Int), r.2)
  | _ => (parseNatPart cs).map fun r => ((r.1 : Int), r.2)

mutual

/-- Fuel-indexed parser for one JSON value. -/
def parseValue : Nat → List Char → Option (Json × List Char)
  | 0, _ => none
  | fuel + 1, cs =>
    match skipWs cs with
    | [] => none
    | c :: rest =>
      if c = '{' then
        match skipWs rest with
        | '}' :: rest' => some (.obj [], rest')
        | cs' => (parseMembers fuel cs').map fun r => (Json.obj r.1, r.2)
      else if c = '[' then
        match skipWs rest with
        | ']' :: rest' => some (.arr [], rest')
        | cs' => (parseElems fuel cs').map fun r => (Json.arr r.1, r.2)
      else if c = '"' then
        (parseStringBody (rest.length + 1) rest).map fun r => (Json.str (String.mk r.1), r.2)
      else if c = 't' then
        match rest with
        | 'r' :: 'u' :: 'e' :: rest' => some (.bool true, rest')
        | _ => none
      else if c = 'f' then
        match rest with
        | 'a' :: 'l' :: 's' :: 'e' :: rest' => some (.bool false, rest')
        | _ => none
      else if c = 'n' then
        match rest with
        | 'u' :: 'l' :: 'l' :: rest' => some (.null, rest')
        | _ => none
      else if c = '-' ∨ c.isDigit then
        (parseNumber (c :: rest)).map fun r => (Json.num r.1, r.2)
      else none

/-- Fuel-indexed parser for the elements of a nonempty array, after its
opening bracket. -/
def parseElems : Nat → List Char → Option (List Json × List Char)
  | 0, _ => none
  | fuel + 1, cs =>
    match parseValue fuel cs with
    | none => none
    | some (v, r1) =>
      match skipWs r1 with
      | ',' :: r2 => (parseElems fuel r2).map fun r => (v :: r.1, r.2)
      | ']' :: r2 => some ([v], r2)
      | _ => none

/-- Fuel-indexed parser for the members of a nonempty object, after its
opening brace. -/
def parseMembers : Nat → List Char → Option (List (String × Json) × List Char)
  | 0, _ => none
  | fuel + 1, cs =>
    match skipWs cs with
    | '"' :: r0 =>
      match parseStringBody (r0.length + 1) r0 with
      | none => none
      | some (k, r1) =>
        match skipWs r1 with
        | ':' :: r2 =>
          match parseValue fuel r2 with
          | none => none
          | some (v, r3) =>
            match skipWs r3 with
            | ',' :: r4 => (parseMembers fuel r4).map fun r => ((String.mk k, v) :: r.1, r.2)
            | '}' :: r4 => some ([(String.mk k, v)], r4)
            | _ => none
        | _ => none
    | _ => none

end

/-- Total model of `JSON.parse`: `none` where JS would throw. -/
def parseJson (s : String) : Option Json :=
  match parseValue (s.length + 1) s.data with
  | some (v, rest) => if skipWs rest = [] then some v else none
  | none => none

/-! ### UTF-8 (Buffer.from(string) and buffer.toString for utf-8) -/

/-- UTF-8 encoding of one scalar value, as a list of byte values. -/
def utf8EncodeChar (c : Char) : List Nat :=
  let n := c.toNat
  if n < 0x80 then [n]
  else if n < 0x800 then [0xC0 + n / 64, 0x80 + n % 64]
  else if n < 0x10000 then [0xE0 + n / 4096, 0x80 + n / 64 % 64, 0x80 + n % 64]
  else [0xF0 + n / 262144, 0x80 + n / 4096 % 64, 0x80 + n / 64 % 64, 0x80 + n % 64]

/-- UTF-8 encoding of a character sequence. -/
def utf8Encode : List Char → List Nat
  | [] => []
  | c :: cs => utf8EncodeChar c ++ utf8Encode cs

/-- Lossy fuel-indexed UTF-8 decoding: invalid sequences become
replacement characters, as Node's utf-8 decoder does. -/
def utf8DecodeFuel : Nat → List Nat → List Char
  | 0, _ => []
  | _ + 1, [] => []
  | fuel + 1, b :: bs =>
    if b < 0x80 then Char.ofNat b :: utf8DecodeFuel fuel bs
    else if b < 0xC2 then replacementChar :: utf8DecodeFuel fuel bs
    else if b < 0xE0 then
      match bs with
      | b2 :: bs2 =>
        if 0x80 ≤ b2 ∧ b2 < 0xC0 then
          Char.ofNat ((b - 0xC0) * 64 + (b2 - 0x80)) :: utf8DecodeFuel fuel bs2
        else replacementChar :: utf8DecodeFuel fuel bs
      | [] => [replacementChar]
    else if b < 0xF0 then
      match bs with
      | b2 :: b3 :: bs3 =>
        if 0x80 ≤ b2 ∧ b2 < 0xC0 ∧ 0x80 ≤ b3 ∧ b3 < 0xC0 then
          let n := (b - 0xE0) * 4096 + (b2 - 0x80) * 64 + (b3 - 0x80)
          if 0x800 ≤ n ∧ (n < 0xD800 ∨ 0xE000 ≤ n) then Char.ofNat n :: utf8DecodeFuel fuel bs3
          else replacementChar :: utf8DecodeFuel fuel bs
        else replacementChar :: utf8DecodeFuel fuel bs
      | _ => [replacementChar]
    else if b < 0xF5 then
      match bs with
      | b2 :: b3 :: b4 :: bs4 =>
        if 0x80 ≤ b2 ∧ b2 < 0xC0 ∧ 0x80 ≤ b3 ∧ b3 < 0xC0 ∧ 0x80 ≤ b4 ∧ b4 < 0xC0 then
          let n := (b - 0xF0) * 262144 + (b2 - 0x80) * 4096 + (b3 - 0x80) * 64 + (b4 - 0x80)
          if 0x10000 ≤ n ∧ n < 0x110000 then Char.ofNat n :: utf8DecodeFuel fuel bs4
          else replacementChar :: utf8DecodeFuel fuel bs
        else replacementChar :: utf8DecodeFuel fuel bs
      | _ => [replacementChar]
    else replacementChar :: utf8DecodeFuel fuel bs

/-- Lossy UTF-8 decoding of a byte sequence. -/
def utf8Decode (bs : List Nat) : List Char := utf8DecodeFuel (bs.length + 1) bs

/-! ### Base64 (Buffer's base64 codec; decoding is forgiving) -/

/-- The base64 alphabet. -/
def b64Alphabet : List Char :=
  "ABCDEFGHIJKLMNOPQRSTUVWXYZabcdefghijklmnopqrstuvwxyz0123456789+/".data

/-- Character for a sextet value. -/
def b64Char (n : Nat) : Char := b64Alphabet.getD n 'A'

/-- Sextet value of an alphabet character, `none` for anything else. -/
def b64Index (c : Char) : Option Nat := b64Alphabet.findIdx? (· == c)

/-- Base64 encoding of a byte sequence, with padding. -/
def b64EncodeBytes : List Nat → List Char
  | [] => []
  | [a] => [b64Char (a / 4), b64Char (a % 4 * 16), '=', '=']
  | [a, b] => [b64Char (a / 4), b64Char (a % 4 * 16 + b / 16), b64Char (b % 16 * 4), '=']
  | a :: b :: c :: rest =>
    b64Char (a / 4) :: b64Char (a % 4 * 16 + b / 16) :: b64Char (b % 16 * 4 + c / 64) ::
      b64Char (c % 64) :: b64EncodeBytes rest

/-- Bytes from a sextet sequence; a trailing partial group of one sextet
is dropped, as Node's forgiving decoder does. -/
def b64DecodeSextets : List Nat → List Nat
  | w :: x :: y :: z :: rest =>
    (w * 4 + x / 16) :: (x % 16 * 16 + y / 4) :: (y % 4 * 64 + z) :: b64DecodeSextets rest
  | [w, x] => [w * 4 + x / 16]
  | [w, x, y] => [w * 4 + x / 16, x % 16 * 16 + y / 4]
  | _ => []

/-- Forgiving base64 decoding of a character sequence: characters
outside the alphabet (padding included) are ignored. -/
def b64DecodeChars (cs : List Char) : List Nat :=
  b64DecodeSextets (cs.filterMap b64Index)

/-- Model of `Buffer.from(s).toString('base64')`. -/
def encodeBase64Utf8 (s : String) : String :=
  String.mk (b64EncodeBytes (utf8Encode s.data))

/-- Model of `Buffer.from(t, 'base64').toString('utf-8')`. -/
def decodeBase64Utf8 (t : String) : String :=
  String.mk (utf8Decode (b64DecodeChars t.data))

/-! ### Codec roundtrips -/

theorem b64Index_b64Char : ∀ n : Nat, n < 64 → b64Index (b64Char n) = some n := by decide

theorem b64DecodeChars_encode : ∀ bytes : List Nat, (∀ b ∈ bytes, b < 256) →
    b64DecodeChars (b64EncodeBytes bytes) = bytes
  | [], _ => rfl
  | [a], h => by
    have ha : a < 256 := h a (by simp)
    simp only [b64EncodeBytes, b64DecodeChars, List.filterMap_cons,
      b64Index_b64Char _ (by omega : a / 4 < 64),
      b64Index_b64Char _ (by omega : a % 4 * 16 < 64)]
    have : b64Index '=' = none := by decide
    simp only [this, List.filterMap_nil, b64DecodeSextets]
    have : a / 4 * 4 + a % 4 * 16 / 16 = a := by omega
    rw [this]
  | [a, b], h => by
    have ha : a < 256 := h a (by simp)
    have hb : b < 256 := h b (by simp)
    simp only [b64EncodeBytes, b64DecodeChars, List.filterMap_cons,
      b64Index_b64Char _ (by omega : a / 4 < 64),
      b64Index_b64Char _ (by omega : a % 4 * 16 + b / 16 < 64),
      b64Index_b64Char _ (by omega : b % 16 * 4 < 64)]
    have : b64Index '=' = none := by decide
    simp only [this, List.filterMap_nil, b64DecodeSextets]
    have h1 : a / 4 * 4 + (a % 4 * 16 + b / 16) / 16 = a := by omega
    have h2 : (a % 4 * 16 + b / 16) % 16 * 16 + b % 16 * 4 / 4 = b := by omega
    rw [h1, h2]
  | a :: b :: c :: rest, h => by
    have ha : a < 256 := h a (by simp)
    have hb : b < 256 := h b (by simp)
    have hc : c < 256 := h c (by simp)
    have ih := b64DecodeChars_encode rest (fun x hx => h x (by simp [hx]))
    simp only [b64EncodeBytes, b64DecodeChars, List.filterMap_cons,
      b64Index_b64Char _ (by omega : a / 4 < 64),
      b64Index_b64Char _ (by omega : a % 4 * 16 + b / 16 < 64),
      b64Index_b64Char _ (by omega : b % 16 * 4 + c / 64 < 64),
      b64Index_b64Char _ (by omega : c % 64 < 64)] at ih ⊢
    simp only [b64DecodeSextets]
    have h1 : a / 4 * 4 + (a % 4 * 16 + b / 16) / 16 = a := by omega
    have h2 : (a % 4 * 16 + b / 16) % 16 * 16 + (b % 16 * 4 + c / 64) / 4 = b := by omega
    have h3 : (b % 16 * 4 + c / 64) % 4 * 64 + c % 64 = c := by omega
    rw [h1, h2, h3, ih]

theorem char_valid_ranges (c : Char) :
    c.toNat < 0xD800 ∨ (0xE000 ≤ c.toNat ∧ c.toNat < 0x110000) := by
  have := c.valid
  simpa [UInt32.isValidChar, Nat.isValidChar] using this

theorem utf8EncodeChar_bytes_lt (c : Char) : ∀ b ∈ utf8EncodeChar c, b < 256 := by
  have hv := char_valid_ranges c
  intro b hb
  simp only [utf8EncodeChar] at hb
  split at hb
  · simp at hb; omega
  · split at hb
    · simp at hb; rcases hb with rfl | rfl <;> omega
    · split at hb
      · simp at hb; rcases hb with rfl | rfl | rfl <;> omega
      · simp at hb; rcases hb with rfl | rfl | rfl | rfl <;> omega

theorem utf8Encode_bytes_lt : ∀ s : List Char, ∀ b ∈ utf8Encode s, b < 256
  | [], _, hb => by simp [utf8Encode] at hb
  | c :: cs, b, hb => by
    simp only [utf8Encode, List.mem_append] at hb
    rcases hb with hb | hb
    · exact utf8EncodeChar_bytes_lt c b hb
    · exact utf8Encode_bytes_lt cs b hb

theorem length_le_utf8Encode_length : ∀ s : List Char, s.length ≤ (utf8Encode s).length
  | [] => Nat.le_refl _
  | c :: cs => by
    have h1 : 1 ≤ (utf8EncodeChar c).length := by
      simp only [utf8EncodeChar]
      split
      · simp
      · split
        · simp
        · split
          · simp
          · simp
    have := length_le_utf8Encode_length cs
    simp only [utf8Encode, List.length_append, List.length_cons]
    omega

theorem utf8DecodeFuel_encodeChar_cons (c : Char) (rest : List Nat) (fuel : Nat) :
    utf8DecodeFuel (fuel + 1) (utf8EncodeChar c ++ rest) = c :: utf8DecodeFuel fuel rest := by
  have hv := char_valid_ranges c
  by_cases h1 : c.toNat < 0x80
  · simp only [utf8EncodeChar, if_pos h1, List.cons_append, List.nil_append]
    simp only [utf8DecodeFuel, if_pos h1, Char.ofNat_toNat]
  · by_cases h2 : c.toNat < 0x800
    · simp only [utf8EncodeChar, if_neg h1, if_pos h2, List.cons_append, List.nil_append]
      simp only [utf8DecodeFuel]
      rw [if_neg (by omega)]
      rw [if_neg (by omega)]
      rw [if_pos (by omega)]
      rw [if_pos (by constructor <;> omega)]
      have harg : (0xC0 + c.toNat / 64 - 0xC0) * 64 + (0x80 + c.toNat % 64 - 0x80) = c.toNat := by
        omega
      rw [harg, Char.ofNat_toNat]
    · by_cases h3 : c.toNat < 0x10000
      · simp only [utf8EncodeChar, if_neg h1, if_neg h2, if_pos h3, List.cons_append,
          List.nil_append]
        simp only [utf8DecodeFuel]
        rw [if_neg (by omega)]
        rw [if_neg (by omega)]
        rw [if_neg (by omega)]
        rw [if_pos (by omega)]
        rw [if_pos (by refine ⟨by omega, by omega, by omega, by omega⟩)]
        have harg : (0xE0 + c.toNat / 4096 - 0xE0) * 4096 +
            (0x80 + c.toNat / 64 % 64 - 0x80) * 64 + (0x80 + c.toNat % 64 - 0x80) = c.toNat := by
          omega
        simp only [harg]
        rw [if_pos (by omega), Char.ofNat_toNat]
      · simp only [utf8EncodeChar, if_neg h1, if_neg h2, if_neg h3, List.cons_append,
          List.nil_append]
        simp only [utf8DecodeFuel]
        rw [if_neg (by omega)]
        rw [if_neg (by omega)]
        rw [if_neg (by omega)]
        rw [if_neg (by omega)]
        rw [if_pos (by omega)]
        rw [if_pos (by refine ⟨by omega, by omega, by omega, by omega, by omega, by omega⟩)]
        have harg : (0xF0 + c.toNat / 262144 - 0xF0) * 262144 +
            (0x80 + c.toNat / 4096 % 64 - 0x80) * 4096 +
            (0x80 + c.toNat / 64 % 64 - 0x80) * 64 + (0x80 + c.toNat % 64 - 0x80) = c.toNat := by
          omega
        simp only [harg]
        rw [if_pos (by omega), Char.ofNat_toNat]

theorem utf8DecodeFuel_encode : ∀ (s : List Char) (fuel : Nat), s.length < fuel →
    utf8DecodeFuel fuel (utf8Encode s) = s
  | [], fuel, h => by
    cases fuel with
    | zero => omega
    | succ f => rfl
  | c :: cs, fuel, h => by
    cases fuel with
    | zero => omega
    | succ f =>
      rw [utf8Encode, utf8DecodeFuel_encodeChar_cons,
        utf8DecodeFuel_encode cs f (by simp at h; omega)]

theorem decodeBase64Utf8_encode (s : String) : decodeBase64Utf8 (encodeBase64Utf8 s) = s := by
  show String.mk (utf8Decode (b64DecodeChars (b64EncodeBytes (utf8Encode s.data)))) = s
  rw [b64DecodeChars_encode _ (utf8Encode_bytes_lt s.data)]
  unfold utf8Decode
  rw [utf8DecodeFuel_encode s.data ((utf8Encode s.data).length + 1)
    (by have := length_le_utf8Encode_length s.data; omega)]

/-! ### Render/parse roundtrip: numbers -/

/-- Characters that may legally follow a rendered number inside a
rendered JSON document. -/
def numStopper (rest : List Char) : Prop :=
  ∀ c, rest.head? = some c → c.isDigit = false ∧ c ≠ '.' ∧ c ≠ 'e' ∧ c ≠ 'E'

theorem digitsToNat_append (xs : List Char) (d : Char) :
    digitsToNat (xs ++ [d]) = digitsToNat xs * 10 + (d.toNat - 48) := by
  simp [digitsToNat, List.foldl_append]

theorem digitChar_facts : ∀ k, k < 10 →
    (digitChar k).isDigit = true ∧ (digitChar k).toNat - 48 = k ∧
      isJsonWs (digitChar k) = false := by decide

theorem digitChar_eq_zero : ∀ k, k < 10 → digitChar k = '0' → k = 0 := by decide

theorem natCharsFuel_spec : ∀ (fuel n : Nat), n < fuel →
    (∀ c ∈ natCharsFuel fuel n, c.isDigit = true) ∧
    digitsToNat (natCharsFuel fuel n) = n ∧
    natCharsFuel fuel n ≠ [] ∧
    ((natCharsFuel fuel n).head? = some '0' → n = 0) := by
  intro fuel
  induction fuel with
  | zero => intro n h; omega
  | succ f ih =>
    intro n h
    by_cases h10 : n < 10
    · simp only [natCharsFuel, if_pos h10]
      refine ⟨?_, ?_, by simp, ?_⟩
      · intro c hc
        simp at hc
        subst hc
        exact (digitChar_facts n h10).1
      · have := (digitChar_facts n h10).2.1
        simp [digitsToNat]
        omega
      · intro hh
        simp at hh
        exact digitChar_eq_zero n h10 hh
    · have hdiv : n / 10 < f := by omega
      obtain ⟨iha, ihb, ihc, ihd⟩ := ih (n / 10) hdiv
      simp only [natCharsFuel, if_neg h10]
      refine ⟨?_, ?_, by simp, ?_⟩
      · intro c hc
        simp only [List.mem_append, List.mem_singleton] at hc
        rcases hc with hc | rfl
        · exact iha c hc
        · exact (digitChar_facts (n % 10) (by omega)).1
      · rw [digitsToNat_append, ihb]
        have := (digitChar_facts (n % 10) (by omega)).2.1
        omega
      · rw [List.head?_append_of_ne_nil _ ihc]
        intro hh
        have := ihd hh
        omega

theorem natChars_spec (n : Nat) :
    (∀ c ∈ natChars n, c.isDigit = true) ∧
    digitsToNat (natChars n) = n ∧
    natChars n ≠ [] ∧
    ((natChars n).head? = some '0' → n = 0) :=
  natCharsFuel_spec (n + 1) n (by omega)

theorem parseDigits_spec : ∀ (ds rest : List Char), (∀ c ∈ ds, c.isDigit = true) →
    (∀ c, rest.head? = some c → c.isDigit = false) →
    parseDigits (ds ++ rest) = (ds, rest)
  | [], rest, _, hr => by
    cases rest with
    | nil => rfl
    | cons c r => simp [parseDigits, hr c rfl]
  | d :: ds, rest, hd, hr => by
    rw [List.cons_append]
    unfold parseDigits
    rw [if_pos (hd d (by simp)),
      parseDigits_spec ds rest (fun c hc => hd c (by simp [hc])) hr]

theorem parseNatPart_natChars (m : Nat) (rest : List Char) (hrest : numStopper rest) :
    parseNatPart (natChars m ++ rest) = some (m, rest) := by
  obtain ⟨ha, hb, hc, hd⟩ := natChars_spec m
  have hpd : parseDigits (natChars m ++ rest) = (natChars m, rest) :=
    parseDigits_spec _ _ ha (fun c h => (hrest c h).1)
  simp only [parseNatPart, hpd]
  rw [if_neg (by simp [hc]), if_neg ?_, if_neg ?_]
  · exact congrArg some (by rw [hb])
  · rintro (h | h | h) <;> { have := hrest _ h; simp_all }
  · rintro ⟨h1, h2⟩
    have hm := hd h1
    subst hm
    have : natChars 0 = ['0'] := by decide
    rw [this] at h2
    simp at h2

theorem isDigit_ne_dash (c : Char) (h : c.isDigit = true) : c ≠ '-' := by
  intro hcd
  subst hcd
  exact absurd h (by decide)

theorem parseNumber_intChars (n : Int) (rest : List Char) (hrest : numStopper rest) :
    parseNumber (intChars n ++ rest) = some (n, rest) := by
  by_cases hneg : n < 0
  · simp only [intChars, if_pos hneg, List.cons_append]
    have hred : parseNumber ('-' :: (natChars n.natAbs ++ rest)) =
        (parseNatPart (natChars n.natAbs ++ rest)).map fun r => (-(r.1 : Int), r.2) := rfl
    rw [hred, parseNatPart_natChars n.natAbs rest hrest]
    refine congrArg some (Prod.ext ?_ rfl)
    show -((n.natAbs : Nat) : Int) = n
    omega
  · simp only [intChars, if_neg hneg]
    obtain ⟨ha, _, hc, _⟩ := natChars_spec n.toNat
    obtain ⟨d, ds, hds⟩ : ∃ d ds, natChars n.toNat = d :: ds := by
      cases hcs : natChars n.toNat with
      | nil => exact absurd hcs hc
      | cons d ds => exact ⟨d, ds, rfl⟩
    have hdd : d.isDigit = true := ha d (by rw [hds]; simp)
    rw [hds, List.cons_append]
    unfold parseNumber
    split
    · rename_i heq
      have hd' : d = '-' := by
        have := congrArg List.head? heq
        simpa using this
      exact absurd hd' (isDigit_ne_dash d hdd)
    · rw [← List.cons_append, ← hds, parseNatPart_natChars n.toNat rest hrest]
      refine congrArg some (Prod.ext ?_ rfl)
      show ((n.toNat : Nat) : Int) = n
      omega

/-! ### Render/parse roundtrip: string literals -/

theorem hexVal_hexChar : ∀ n, n < 16 → hexVal (hexChar n) = some n := by decide

theorem length_le_escChars_length : ∀ s : List Char, s.length ≤ (escChars s).length
  | [] => Nat.le_refl _
  | c :: s => by
    have h1 : 1 ≤ (escChar c).length := by
      simp only [escChar]
      repeat' split
      all_goals simp
    have := length_le_escChars_length s
    simp only [escChars, List.length_append, List.length_cons]
    omega

theorem parseStringBody_escChars : ∀ (s rest : List Char) (fuel : Nat), s.length < fuel →
    parseStringBody fuel (escChars s ++ '"' :: rest) = some (s, rest)
  | [], rest, fuel, h => by
    cases fuel with
    | zero => omega
    | succ f => rfl
  | c :: s, rest, fuel, h => by
    cases fuel with
    | zero => omega
    | succ f =>
      have ih := parseStringBody_escChars s rest f (by simp at h; omega)
      have hassoc : escChars (c :: s) ++ '"' :: rest =
          escChar c ++ (escChars s ++ '"' :: rest) := by
        simp [escChars]
      rw [hassoc]
      by_cases h1 : c = '"'
      · subst h1
        have he : escChar '"' = ['\\', '"'] := by rfl
        rw [he]
        simp [parseStringBody, ih]
      · by_cases h2 : c = '\\'
        · subst h2
          have he : escChar '\\' = ['\\', '\\'] := by rfl
          rw [he]
          simp [parseStringBody, ih]
        · by_cases h3 : c = Char.ofNat 8
          · subst h3
            have he : escChar (Char.ofNat 8) = ['\\', 'b'] := by rfl
            rw [he]
            simp [parseStringBody, ih]
          · by_cases h4 : c = Char.ofNat 9
            · subst h4
              have he : escChar (Char.ofNat 9) = ['\\', 't'] := by rfl
              rw [he]
              simp [parseStringBody, ih]
            · by_cases h5 : c = Char.ofNat 10
              · subst h5
                have he : escChar (Char.ofNat 10) = ['\\', 'n'] := by rfl
                rw [he]
                simp [parseStringBody, ih]
              · by_cases h6 : c = Char.ofNat 12
                · subst h6
                  have he : escChar (Char.ofNat 12) = ['\\', 'f'] := by rfl
                  rw [he]
                  simp [parseStringBody, ih]
                · by_cases h7 : c = Char.ofNat 13
                  · subst h7
                    have he : escChar (Char.ofNat 13) = ['\\', 'r'] := by rfl
                    rw [he]
                    simp [parseStringBody, ih]
                  · by_cases h8 : c.toNat < 32
                    · have he : escChar c =
                          ['\\', 'u', '0', '0', hexChar (c.toNat / 16), hexChar (c.toNat % 16)] := by
                        simp only [escChar, if_neg h1, if_neg h2, if_neg h3, if_neg h4,
                          if_neg h5, if_neg h6, if_neg h7, if_pos h8]
                      rw [he]
                      show parseStringBody (f + 1)
                        ('\\' :: 'u' :: '0' :: '0' :: hexChar (c.toNat / 16) ::
                          hexChar (c.toNat % 16) :: (escChars s ++ '"' :: rest)) = _
                      simp only [parseStringBody, reduceIte]
                      rw [show hexVal '0' = some 0 from by decide,
                        hexVal_hexChar (c.toNat / 16) (by omega),
                        hexVal_hexChar (c.toNat % 16) (by omega)]
                      simp only
                      rw [show ((0 * 16 + 0) * 16 + c.toNat / 16) * 16 + c.toNat % 16 = c.toNat
                          from by omega]
                      rw [if_neg (show ¬(55296 ≤ c.toNat ∧ c.toNat < 56320) from by omega),
                        if_neg (show ¬(56320 ≤ c.toNat ∧ c.toNat < 57344) from by omega), ih]
                      simp [Char.ofNat_toNat]
                    · have he : escChar c = [c] := by
                        simp only [escChar, if_neg h1, if_neg h2, if_neg h3, if_neg h4,
                          if_neg h5, if_neg h6, if_neg h7, if_neg h8]
                      rw [he]
                      show parseStringBody (f + 1) (c :: (escChars s ++ '"' :: rest)) = _
                      simp only [parseStringBody]
                      rw [if_neg h1, if_neg h2, if_neg (by omega), ih]
                      rfl

/-! ### Render/parse roundtrip: values -/

mutual

/-- Fuel sufficient for `parseValue` to read a rendered value. -/
def Json.fuelNeed : Json → Nat
  | .arr es => 1 + Json.fuelNeedElems es
  | .obj fs => 1 + Json.fuelNeedFields fs
  | _ => 1

/-- Fuel sufficient for `parseElems` to read rendered elements. -/
def Json.fuelNeedElems : List Json → Nat
  | [] => 1
  | v :: vs => 1 + max (Json.fuelNeed v) (Json.fuelNeedElems vs)

/-- Fuel sufficient for `parseMembers` to read rendered fields. -/
def Json.fuelNeedFields : List (String × Json) → Nat
  | [] => 1
  | (_, v) :: fs => 1 + max (Json.fuelNeed v) (Json.fuelNeedFields fs)

end

/-- Characters that may legally follow a rendered value inside a larger
rendered document. -/
def seqStopper (rest : List Char) : Prop :=
  ∀ c, rest.head? = some c → c = ',' ∨ c = '}' ∨ c = ']'

theorem seqStopper_nil : seqStopper [] := fun c hc => by simp at hc

theorem seqStopper_cons_comma (l : List Char) : seqStopper (',' :: l) := by
  intro c hc
  simp at hc
  subst hc
  exact Or.inl rfl

theorem seqStopper_cons_rbrace (l : List Char) : seqStopper ('}' :: l) := by
  intro c hc
  simp at hc
  subst hc
  exact Or.inr (Or.inl rfl)

theorem seqStopper_cons_rbracket (l : List Char) : seqStopper (']' :: l) := by
  intro c hc
  simp at hc
  subst hc
  exact Or.inr (Or.inr rfl)

theorem numStopper_of_seq (rest : List Char) (h : seqStopper rest) : numStopper rest := by
  intro c hc
  rcases h c hc with rfl | rfl | rfl <;> exact ⟨by decide, by decide, by decide, by decide⟩

theorem isDigit_head_facts (c : Char) (h : c.isDigit = true) :
    isJsonWs c = false ∧ c ≠ ']' ∧ c ≠ '}' ∧ c ≠ '{' ∧ c ≠ '[' ∧ c ≠ '"' ∧
      c ≠ 't' ∧ c ≠ 'f' ∧ c ≠ 'n' := by
  refine ⟨?_, ?_, ?_, ?_, ?_, ?_, ?_, ?_, ?_⟩
  · by_contra hw
    simp only [Bool.not_eq_false] at hw
    simp only [isJsonWs, Bool.or_eq_true, beq_iff_eq] at hw
    rcases hw with ((rfl | rfl) | rfl) | rfl <;> exact absurd h (by decide)
  all_goals (intro hcc; subst hcc; exact absurd h (by decide))

/-- Every rendered value starts with a character that is not whitespace
and not a closing bracket. -/
theorem render_cons (v : Json) :
    ∃ c cs, Json.render v = c :: cs ∧ isJsonWs c = false ∧ c ≠ ']' ∧ c ≠ '}' := by
  cases v with
  | null => refine ⟨'n', _, rfl, ?_, ?_, ?_⟩ <;> decide
  | bool b =>
    cases b with
    | true => refine ⟨'t', _, rfl, ?_, ?_, ?_⟩ <;> decide
    | false => refine ⟨'f', _, rfl, ?_, ?_, ?_⟩ <;> decide
  | num n =>
    by_cases hneg : n < 0
    · refine ⟨'-', natChars n.natAbs, by simp [Json.render, intChars, hneg], ?_, ?_, ?_⟩ <;>
        decide
    · obtain ⟨ha, _, hc, _⟩ := natChars_spec n.toNat
      obtain ⟨d, ds, hds⟩ : ∃ d ds, natChars n.toNat = d :: ds := by
        cases hcs : natChars n.toNat with
        | nil => exact absurd hcs hc
        | cons d ds => exact ⟨d, ds, rfl⟩
      have hdd : d.isDigit = true := ha d (by rw [hds]; simp)
      obtain ⟨hw, hr, hb, _⟩ := isDigit_head_facts d hdd
      refine ⟨d, ds, ?_, hw, hr, hb⟩
      simp [Json.render, intChars, hneg, hds]
  | str s => refine ⟨'"', _, rfl, ?_, ?_, ?_⟩ <;> decide
  | arr es => refine ⟨'[', _, rfl, ?_, ?_, ?_⟩ <;> decide
  | obj fs => refine ⟨'{', _, rfl, ?_, ?_, ?_⟩ <;> decide

theorem skipWs_cons_not_ws {c : Char} (l : List Char) (h : isJsonWs c = false) :
    skipWs (c :: l) = c :: l := by
  simp [skipWs, h]

/-- String.mk of the data of a string is that string. -/
theorem string_mk_data : ∀ s : String, String.mk s.data = s
  | ⟨_⟩ => rfl

theorem parseValue_render_num (n : Int) (rest : List Char) (f : Nat) (hr : seqStopper rest) :
    parseValue (f + 1) (intChars n ++ rest) = some (.num n, rest) := by
  have hnum := parseNumber_intChars n rest (numStopper_of_seq rest hr)
  by_cases hneg : n < 0
  · have hi : intChars n = '-' :: natChars n.natAbs := by simp [intChars, hneg]
    rw [hi, List.cons_append]
    simp only [parseValue]
    rw [skipWs_cons_not_ws _ (by decide)]
    simp only [if_neg (show ¬('-' : Char) = '{' from by decide),
      if_neg (show ¬('-' : Char) = '[' from by decide),
      if_neg (show ¬('-' : Char) = '"' from by decide),
      if_neg (show ¬('-' : Char) = 't' from by decide),
      if_neg (show ¬('-' : Char) = 'f' from by decide),
      if_neg (show ¬('-' : Char) = 'n' from by decide),
      if_pos (show ('-' : Char) = '-' ∨ ('-' : Char).isDigit = true from Or.inl rfl)]
    rw [← List.cons_append, ← hi, hnum]
    rfl
  · obtain ⟨ha, _, hc, _⟩ := natChars_spec n.toNat
    obtain ⟨d, ds, hds⟩ : ∃ d ds, natChars n.toNat = d :: ds := by
      cases hcs : natChars n.toNat with
      | nil => exact absurd hcs hc
      | cons d ds => exact ⟨d, ds, rfl⟩
    have hdd : d.isDigit = true := ha d (by rw [hds]; simp)
    obtain ⟨hw, _, _, h1, h2, h3, h4, h5, h6⟩ := isDigit_head_facts d hdd
    have hi : intChars n = d :: ds := by simp [intChars, hneg, hds]
    rw [hi, List.cons_append]
    simp only [parseValue]
    rw [skipWs_cons_not_ws _ hw]
    simp only [if_neg h1, if_neg h2, if_neg h3, if_neg h4, if_neg h5, if_neg h6,
      if_pos (show d = '-' ∨ d.isDigit = true from Or.inr hdd)]
    rw [← List.cons_append, ← hi, hnum]
    rfl

mutual

theorem parseValue_render : ∀ (v : Json) (rest : List Char) (fuel : Nat),
    Json.fuelNeed v ≤ fuel → seqStopper rest →
    parseValue fuel (Json.render v ++ rest) = some (v, rest)
  | .null, rest, fuel, hf, _ => by
    cases fuel with
    | zero => simp [Json.fuelNeed] at hf
    | succ f =>
      show parseValue (f + 1) ('n' :: 'u' :: 'l' :: 'l' :: rest) = some (.null, rest)
      simp [parseValue, skipWs, isJsonWs]
  | .bool true, rest, fuel, hf, _ => by
    cases fuel with
    | zero => simp [Json.fuelNeed] at hf
    | succ f =>
      show parseValue (f + 1) ('t' :: 'r' :: 'u' :: 'e' :: rest) = some (.bool true, rest)
      simp [parseValue, skipWs, isJsonWs]
  | .bool false, rest, fuel, hf, _ => by
    cases fuel with
    | zero => simp [Json.fuelNeed] at hf
    | succ f =>
      show parseValue (f + 1) ('f' :: 'a' :: 'l' :: 's' :: 'e' :: rest) = some (.bool false, rest)
      simp [parseValue, skipWs, isJsonWs]
  | .num n, rest, fuel, hf, hr => by
    cases fuel with
    | zero => simp [Json.fuelNeed] at hf
    | succ f => exact parseValue_render_num n rest f hr
  | .str s, rest, fuel, hf, _ => by
    cases fuel with
    | zero => simp [Json.fuelNeed] at hf
    | succ f =>
      have hshape : Json.render (.str s) ++ rest =
          '"' :: (escChars s.data ++ '"' :: rest) := by
        simp [Json.render, renderString]
      rw [hshape]
      have hred : parseValue (f + 1) ('"' :: (escChars s.data ++ '"' :: rest)) =
          (parseStringBody ((escChars s.data ++ '"' :: rest).length + 1)
            (escChars s.data ++ '"' :: rest)).map
            (fun r => (Json.str (String.mk r.1), r.2)) := rfl
      rw [hred, parseStringBody_escChars s.data rest _
        (by
          have h1 := length_le_escChars_length s.data
          have h2 : s.length = s.data.length := rfl
          simp [List.length_append]
          omega)]
      simp [string_mk_data]
  | .arr [], rest, fuel, hf, _ => by
    cases fuel with
    | zero => simp [Json.fuelNeed] at hf
    | succ f =>
      show parseValue (f + 1) ('[' :: ']' :: rest) = some (.arr [], rest)
      simp [parseValue, skipWs, isJsonWs]
  | .arr (e :: es), rest, fuel, hf, hr => by
    cases fuel with
    | zero => simp [Json.fuelNeed] at hf
    | succ f =>
      have hfe : Json.fuelNeedElems (e :: es) ≤ f := by
        rw [Json.fuelNeed] at hf
        omega
      obtain ⟨c0, cs0, hc0, hw0, hr0, _⟩ := render_cons e
      have hshape : Json.render (.arr (e :: es)) ++ rest =
          '[' :: (Json.renderElems (e :: es) ++ ']' :: rest) := by
        simp [Json.render]
      rw [hshape]
      have hred : parseValue (f + 1) ('[' :: (Json.renderElems (e :: es) ++ ']' :: rest)) =
          (match skipWs (Json.renderElems (e :: es) ++ ']' :: rest) with
            | ']' :: rest' => some (Json.arr [], rest')
            | cs' => (parseElems f cs').map fun r => (Json.arr r.1, r.2)) := rfl
      rw [hred]
      obtain ⟨t, ht⟩ : ∃ t, Json.renderElems (e :: es) ++ ']' :: rest = c0 :: t := by
        cases es with
        | nil => exact ⟨cs0 ++ ']' :: rest, by simp [Json.renderElems, hc0]⟩
        | cons e2 es' =>
          exact ⟨cs0 ++ ',' :: (Json.renderElems (e2 :: es') ++ ']' :: rest), by
            simp [Json.renderElems, hc0]⟩
      rw [ht, skipWs_cons_not_ws _ hw0]
      split
      · rename_i rest' heq
        exfalso
        apply hr0
        have h1 := congrArg List.head? heq
        simp at h1
        exact h1
      · rw [← ht, parseElems_render (e :: es) rest f (by simp) hfe hr]
        rfl
  | .obj [], rest, fuel, hf, _ => by
    cases fuel with
    | zero => simp [Json.fuelNeed] at hf
    | succ f =>
      show parseValue (f + 1) ('{' :: '}' :: rest) = some (.obj [], rest)
      simp [parseValue, skipWs, isJsonWs]
  | .obj (m :: fs), rest, fuel, hf, hr => by
    cases fuel with
    | zero => simp [Json.fuelNeed] at hf
    | succ f =>
      have hfm : Json.fuelNeedFields (m :: fs) ≤ f := by
        rw [Json.fuelNeed] at hf
        omega
      have hshape : Json.render (.obj (m :: fs)) ++ rest =
          '{' :: (Json.renderFields (m :: fs) ++ '}' :: rest) := by
        simp [Json.render]
      rw [hshape]
      have hred : parseValue (f + 1) ('{' :: (Json.renderFields (m :: fs) ++ '}' :: rest)) =
          (match skipWs (Json.renderFields (m :: fs) ++ '}' :: rest) with
            | '}' :: rest' => some (Json.obj [], rest')
            | cs' => (parseMembers f cs').map fun r => (Json.obj r.1, r.2)) := rfl
      rw [hred]
      obtain ⟨t, ht⟩ : ∃ t, Json.renderFields (m :: fs) ++ '}' :: rest = '"' :: t := by
        cases m with
        | mk k v =>
          cases fs with
          | nil =>
            exact ⟨(escChars k.data ++ ['"']) ++ ':' :: Json.render v ++ '}' :: rest, by
              simp [Json.renderFields, renderString]⟩
          | cons m2 fs' =>
            exact ⟨(escChars k.data ++ ['"']) ++ ':' :: Json.render v ++
              ',' :: (Json.renderFields (m2 :: fs') ++ '}' :: rest), by
              simp [Json.renderFields, renderString]⟩
      rw [ht, skipWs_cons_not_ws _ (by decide)]
      split
      · rename_i rest' heq
        exfalso
        have h1 := congrArg List.head? heq
        simp at h1
      · rw [← ht, parseMembers_render (m :: fs) rest f (by simp) hfm hr]
        rfl

theorem parseElems_render : ∀ (es : List Json) (rest : List Char) (fuel : Nat), es ≠ [] →
    Json.fuelNeedElems es ≤ fuel → seqStopper rest →
    parseElems fuel (Json.renderElems es ++ ']' :: rest) = some (es, rest)
  | [], _, _, hne, _, _ => absurd rfl hne
  | [e], rest, fuel, _, hf, hr => by
    cases fuel with
    | zero => simp [Json.fuelNeedElems] at hf
    | succ f =>
      have hfe : Json.fuelNeed e ≤ f := by
        rw [Json.fuelNeedElems] at hf
        omega
      have hshape : Json.renderElems [e] ++ ']' :: rest = Json.render e ++ ']' :: rest := by
        simp [Json.renderElems]
      rw [hshape]
      simp only [parseElems]
      rw [parseValue_render e (']' :: rest) f hfe (seqStopper_cons_rbracket rest)]
      simp [skipWs, isJsonWs]
  | e :: e2 :: es, rest, fuel, _, hf, hr => by
    cases fuel with
    | zero => simp [Json.fuelNeedElems] at hf
    | succ f =>
      rw [Json.fuelNeedElems] at hf
      have hf1 : Json.fuelNeed e ≤ f := by omega
      have hf2 : Json.fuelNeedElems (e2 :: es) ≤ f := by omega
      have hshape : Json.renderElems (e :: e2 :: es) ++ ']' :: rest =
          Json.render e ++ (',' :: (Json.renderElems (e2 :: es) ++ ']' :: rest)) := by
        simp [Json.renderElems]
      rw [hshape]
      simp only [parseElems]
      rw [parseValue_render e _ f hf1 (seqStopper_cons_comma _)]
      simp [skipWs, isJsonWs, parseElems_render (e2 :: es) rest f (by simp) hf2 hr]

theorem parseMembers_render : ∀ (fs : List (String × Json)) (rest : List Char) (fuel : Nat),
    fs ≠ [] → Json.fuelNeedFields fs ≤ fuel → seqStopper rest →
    parseMembers fuel (Json.renderFields fs ++ '}' :: rest) = some (fs, rest)
  | [], _, _, hne, _, _ => absurd rfl hne
  | [(k, v)], rest, fuel, _, hf, hr => by
    cases fuel with
    | zero => simp [Json.fuelNeedFields] at hf
    | succ f =>
      have hfv : Json.fuelNeed v ≤ f := by
        rw [Json.fuelNeedFields] at hf
        omega
      have hshape : Json.renderFields [(k, v)] ++ '}' :: rest =
          '"' :: (escChars k.data ++ '"' :: (':' :: (Json.render v ++ '}' :: rest))) := by
        simp [Json.renderFields, renderString]
      rw [hshape]
      have hsb := parseStringBody_escChars k.data (':' :: (Json.render v ++ '}' :: rest))
        ((escChars k.data ++ '"' :: (':' :: (Json.render v ++ '}' :: rest))).length + 1)
        (by
          have h1 := length_le_escChars_length k.data
          have h2 : k.length = k.data.length := rfl
          simp [List.length_append]
          omega)
      have hpv := parseValue_render v ('}' :: rest) f hfv (seqStopper_cons_rbrace rest)
      have hred : parseMembers (f + 1)
          ('"' :: (escChars k.data ++ '"' :: (':' :: (Json.render v ++ '}' :: rest)))) =
          (match parseStringBody
              ((escChars k.data ++ '"' :: (':' :: (Json.render v ++ '}' :: rest))).length + 1)
              (escChars k.data ++ '"' :: (':' :: (Json.render v ++ '}' :: rest))) with
           | none => none
           | some (kk, r1) =>
             match skipWs r1 with
             | ':' :: r2 =>
               (match parseValue f r2 with
                | none => none
                | some (vv, r3) =>
                  match skipWs r3 with
                  | ',' :: r4 => (parseMembers f r4).map fun r => ((String.mk kk, vv) :: r.1, r.2)
                  | '}' :: r4 => some ([(String.mk kk, vv)], r4)
                  | _ => none)
             | _ => none) := rfl
      rw [hred, hsb]
      simp [skipWs, isJsonWs, hpv, string_mk_data]
  | (k, v) :: m2 :: fs, rest, fuel, _, hf, hr => by
    cases fuel with
    | zero => simp [Json.fuelNeedFields] at hf
    | succ f =>
      rw [Json.fuelNeedFields] at hf
      have hfv : Json.fuelNeed v ≤ f := by omega
      have hf2 : Json.fuelNeedFields (m2 :: fs) ≤ f := by omega
      have hshape : Json.renderFields ((k, v) :: m2 :: fs) ++ '}' :: rest =
          '"' :: (escChars k.data ++ '"' :: (':' :: (Json.render v ++
            ',' :: (Json.renderFields (m2 :: fs) ++ '}' :: rest)))) := by
        simp [Json.renderFields, renderString]
      rw [hshape]
      have hsb := parseStringBody_escChars k.data
        (':' :: (Json.render v ++ ',' :: (Json.renderFields (m2 :: fs) ++ '}' :: rest)))
        ((escChars k.data ++ '"' :: (':' :: (Json.render v ++
          ',' :: (Json.renderFields (m2 :: fs) ++ '}' :: rest)))).length + 1)
        (by
          have h1 := length_le_escChars_length k.data
          have h2 : k.length = k.data.length := rfl
          simp [List.length_append]
          omega)
      have hpv := parseValue_render v
        (',' :: (Json.renderFields (m2 :: fs) ++ '}' :: rest)) f hfv (seqStopper_cons_comma _)
      have hpm := parseMembers_render (m2 :: fs) rest f (by simp) hf2 hr
      have hred : parseMembers (f + 1)
          ('"' :: (escChars k.data ++ '"' :: (':' :: (Json.render v ++
            ',' :: (Json.renderFields (m2 :: fs) ++ '}' :: rest))))) =
          (match parseStringBody
              ((escChars k.data ++ '"' :: (':' :: (Json.render v ++
                ',' :: (Json.renderFields (m2 :: fs) ++ '}' :: rest)))).length + 1)
              (escChars k.data ++ '"' :: (':' :: (Json.render v ++
                ',' :: (Json.renderFields (m2 :: fs) ++ '}' :: rest)))) with
           | none => none
           | some (kk, r1) =>
             match skipWs r1 with
             | ':' :: r2 =>
               (match parseValue f r2 with
                | none => none
                | some (vv, r3) =>
                  match skipWs r3 with
                  | ',' :: r4 => (parseMembers f r4).map fun r => ((String.mk kk, vv) :: r.1, r.2)
                  | '}' :: r4 => some ([(String.mk kk, vv)], r4)
                  | _ => none)
             | _ => none) := rfl
      rw [hred, hsb]
      simp [skipWs, isJsonWs, hpv, hpm, string_mk_data]

end

mutual

theorem fuelNeed_le_render : ∀ v : Json, Json.fuelNeed v ≤ (Json.render v).length + 1
  | .null => by
    rw [show Json.fuelNeed .null = 1 from rfl]
    omega
  | .bool b => by
    rw [show Json.fuelNeed (.bool b) = 1 from rfl]
    omega
  | .num n => by
    rw [show Json.fuelNeed (.num n) = 1 from rfl]
    omega
  | .str s => by
    rw [show Json.fuelNeed (.str s) = 1 from rfl]
    omega
  | .arr es => by
    have h1 : Json.fuelNeed (.arr es) = 1 + Json.fuelNeedElems es := rfl
    have h2 : (Json.render (.arr es)).length = (Json.renderElems es).length + 2 := by
      show ('[' :: (Json.renderElems es ++ [']'])).length = _
      simp
    have h3 := fuelNeedElems_le_render es
    omega
  | .obj fs => by
    have h1 : Json.fuelNeed (.obj fs) = 1 + Json.fuelNeedFields fs := rfl
    have h2 : (Json.render (.obj fs)).length = (Json.renderFields fs).length + 2 := by
      show ('{' :: (Json.renderFields fs ++ ['}'])).length = _
      simp
    have h3 := fuelNeedFields_le_render fs
    omega

theorem fuelNeedElems_le_render :
    ∀ es : List Json, Json.fuelNeedElems es ≤ (Json.renderElems es).length + 2
  | [] => by
    rw [show Json.fuelNeedElems [] = 1 from rfl]
    omega
  | [v] => by
    have h1 : Json.fuelNeedElems [v] = 1 + max (Json.fuelNeed v) 1 := rfl
    have h2 : Json.renderElems [v] = Json.render v := rfl
    have h3 := fuelNeed_le_render v
    rw [h1, h2]
    omega
  | v :: v2 :: es => by
    have h1 : Json.fuelNeedElems (v :: v2 :: es) =
        1 + max (Json.fuelNeed v) (Json.fuelNeedElems (v2 :: es)) := rfl
    have h2 : Json.renderElems (v :: v2 :: es) =
        Json.render v ++ ',' :: Json.renderElems (v2 :: es) := rfl
    have h3 := fuelNeed_le_render v
    have h4 := fuelNeedElems_le_render (v2 :: es)
    rw [h1, h2]
    simp only [List.length_append, List.length_cons]
    omega

theorem fuelNeedFields_le_render :
    ∀ fs : List (String × Json), Json.fuelNeedFields fs ≤ (Json.renderFields fs).length + 2
  | [] => by
    rw [show Json.fuelNeedFields [] = 1 from rfl]
    omega
  | [(k, v)] => by
    have h1 : Json.fuelNeedFields [(k, v)] = 1 + max (Json.fuelNeed v) 1 := rfl
    have h2 : Json.renderFields [(k, v)] = renderString k ++ ':' :: Json.render v := rfl
    have h3 := fuelNeed_le_render v
    rw [h1, h2]
    simp only [List.length_append, List.length_cons]
    omega
  | (k, v) :: m2 :: fs => by
    have h1 : Json.fuelNeedFields ((k, v) :: m2 :: fs) =
        1 + max (Json.fuelNeed v) (Json.fuelNeedFields (m2 :: fs)) := rfl
    have h2 : Json.renderFields ((k, v) :: m2 :: fs) =
        renderString k ++ ':' :: Json.render v ++ ',' :: Json.renderFields (m2 :: fs) := rfl
    have h3 := fuelNeed_le_render v
    have h4 := fuelNeedFields_le_render (m2 :: fs)
    rw [h1, h2]
    simp only [List.length_append, List.length_cons]
    omega

end

/-- Rendering then parsing a JSON value gives the value back. -/
theorem parseJson_render (v : Json) : parseJson (String.mk (Json.render v)) = some v := by
  have h := parseValue_render v [] ((Json.render v).length + 1)
    (fuelNeed_le_render v) seqStopper_nil
  rw [List.append_nil] at h
  show (match parseValue ((Json.render v).length + 1) (Json.render v) with
        | some (w, rest) => if skipWs rest = [] then some w else none
        | none => none) = some v
  rw [h]
  simp [skipWs]

/-- Model of token production: `Buffer.from(JSON.stringify(v)).toString('base64')`. -/
def encodeTokenJson (v : Json) : String :=
  encodeBase64Utf8 (String.mk (Json.render v))

/-- Model of token consumption:
`JSON.parse(Buffer.from(t, 'base64').toString('utf-8'))`, with `none`
where `JSON.parse` would throw. -/
def decodeTokenJson (t : String) : Option Json :=
  parseJson (decodeBase64Utf8 t)

/-- Decoding an encoded token recovers the JSON value. -/
theorem decodeTokenJson_encode (v : Json) : decodeTokenJson (encodeTokenJson v) = some v := by
  unfold decodeTokenJson encodeTokenJson
  rw [decodeBase64Utf8_encode, parseJson_render]

/-!
Part 3: the review aggregation layer (`providers/googleReviews.ts`,
class `GoogleReviewsProvider`).
-/

/-- One review, as in `types/reviews.ts` (raw payload omitted). -/
structure Review where
  author : String
  authorProfilePhoto : Option String := none
  rating : Int
  text : String := ""
  time : String
  relativeTime : Option String := none
  language : Option String := none
deriving DecidableEq, Repr

/-- Identity key of a review: the template string
`${review.author}_${review.time}` (deduplicateReviews line 380, and
getReviewsChunked line 508). -/
def reviewKey (r : Review) : String := r.author ++ "_" ++ r.time

/-- Loop of `deduplicateReviews` with the accumulated `seen` set. -/
def deduplicateGo (seen : List String) : List Review → List Review
  | [] => []
  | r :: rs =>
    if seen.contains (reviewKey r) then deduplicateGo seen rs
    else r :: deduplicateGo (reviewKey r :: seen) rs

/-- Embedding of `GoogleReviewsProvider.deduplicateReviews`
(googleReviews.ts lines 377-387). -/
def deduplicateReviews (reviews : List Review) : List Review :=
  deduplicateGo [] reviews

/-- Modelled from the spec: deduplication by exact equality of the
(author, timestamp) pair, keeping the first occurrence, as §3 of the
spec words the identity key. Used to compare against the code's
string-concatenation key. -/
def specPairDedupGo (seen : List (String × String)) : List Review → List Review
  | [] => []
  | r :: rs =>
    if seen.contains (r.author, r.time) then specPairDedupGo seen rs
    else r :: specPairDedupGo ((r.author, r.time) :: seen) rs

/-- Modelled from the spec: first-seen deduplication keyed by the exact
(author, timestamp) pair. -/
def specPairDedup (reviews : List Review) : List Review :=
  specPairDedupGo [] reviews

theorem key_chars_inj : ∀ (a1 : List Char) (t1 : List Char) (a2 : List Char) (t2 : List Char),
    '_' ∉ t1 → '_' ∉ t2 → a1 ++ '_' :: t1 = a2 ++ '_' :: t2 → a1 = a2 ∧ t1 = t2
  | [], t1, [], t2, _, _, he => by
    simp at he
    exact ⟨rfl, he⟩
  | [], t1, c :: a2, t2, h1, h2, he => by
    simp at he
    obtain ⟨hc, ht⟩ := he
    exfalso
    apply h1
    rw [ht]
    simp
  | c :: a1, t1, [], t2, h1, h2, he => by
    simp at he
    obtain ⟨hc, ht⟩ := he
    exfalso
    apply h2
    rw [← ht]
    simp
  | c :: a1, t1, c' :: a2, t2, h1, h2, he => by
    simp only [List.cons_append, List.cons.injEq] at he
    obtain ⟨rfl, he⟩ := he
    obtain ⟨ha, ht⟩ := key_chars_inj a1 t1 a2 t2 h1 h2 he
    exact ⟨by rw [ha], ht⟩

theorem reviewKey_inj (r1 r2 : Review) (h1 : '_' ∉ r1.time.data) (h2 : '_' ∉ r2.time.data)
    (he : reviewKey r1 = reviewKey r2) : r1.author = r2.author ∧ r1.time = r2.time := by
  have hd := congrArg String.data he
  simp only [reviewKey, String.data_append] at hd
  simp only [List.append_assoc, List.singleton_append] at hd
  obtain ⟨ha, ht⟩ := key_chars_inj _ _ _ _ h1 h2 hd
  constructor
  · have := congrArg String.mk ha
    rwa [string_mk_data, string_mk_data] at this
  · have := congrArg String.mk ht
    rwa [string_mk_data, string_mk_data] at this

theorem keyStr_inj (a1 t1 a2 t2 : String) (h1 : '_' ∉ t1.data) (h2 : '_' ∉ t2.data)
    (he : a1 ++ "_" ++ t1 = a2 ++ "_" ++ t2) : a1 = a2 ∧ t1 = t2 := by
  have hd := congrArg String.data he
  simp only [String.data_append] at hd
  simp only [List.append_assoc, List.singleton_append] at hd
  obtain ⟨ha, ht⟩ := key_chars_inj _ _ _ _ h1 h2 hd
  constructor
  · have := congrArg String.mk ha
    rwa [string_mk_data, string_mk_data] at this
  · have := congrArg String.mk ht
    rwa [string_mk_data, string_mk_data] at this

theorem dedupGo_eq_pairGo : ∀ (l : List Review) (seenP : List (String × String)),
    (∀ r ∈ l, '_' ∉ r.time.data) → (∀ p ∈ seenP, '_' ∉ p.2.data) →
    deduplicateGo (seenP.map fun p => p.1 ++ "_" ++ p.2) l = specPairDedupGo seenP l
  | [], _, _, _ => rfl
  | r :: rs, seenP, hl, hs => by
    have hrt : '_' ∉ r.time.data := hl r (by simp)
    have hiff : ((seenP.map fun p => p.1 ++ "_" ++ p.2).contains (reviewKey r) = true) ↔
        (seenP.contains (r.author, r.time) = true) := by
      constructor
      · intro hL
        have hmm : reviewKey r ∈ seenP.map fun p => p.1 ++ "_" ++ p.2 := by simpa using hL
        obtain ⟨p, hp, hpe⟩ := List.mem_map.mp hmm
        have hpt : '_' ∉ p.2.data := hs p hp
        obtain ⟨ha, ht⟩ := keyStr_inj p.1 p.2 r.author r.time hpt hrt hpe
        have : p = (r.author, r.time) := by
          cases p
          simp_all
        subst this
        simpa using hp
      · intro hR
        have hmm : (r.author, r.time) ∈ seenP := by simpa using hR
        have : reviewKey r ∈ seenP.map fun p => p.1 ++ "_" ++ p.2 :=
          List.mem_map.mpr ⟨(r.author, r.time), hmm, rfl⟩
        simpa using this
    have hmem : ((seenP.map fun p => p.1 ++ "_" ++ p.2).contains (reviewKey r)) =
        (seenP.contains (r.author, r.time)) := by
      cases hL : (seenP.map fun p => p.1 ++ "_" ++ p.2).contains (reviewKey r) with
      | false =>
        cases hR : seenP.contains (r.author, r.time) with
        | false => rfl
        | true => exact absurd (hiff.mpr hR) (by rw [hL]; simp)
      | true => exact (hiff.mp hL).symm
    simp only [deduplicateGo, specPairDedupGo, hmem]
    cases hc : seenP.contains (r.author, r.time) with
    | true =>
      simp only [if_pos hc]
      exact dedupGo_eq_pairGo rs seenP (fun q hq => hl q (by simp [hq])) hs
    | false =>
      simp only [hc, Bool.false_eq_true, if_false]
      have hrec := dedupGo_eq_pairGo rs ((r.author, r.time) :: seenP)
        (fun q hq => hl q (by simp [hq]))
        (fun p hp => by
          rcases List.mem_cons.mp hp with rfl | hp'
          · exact hrt
          · exact hs p hp')
      have hmap : reviewKey r :: (seenP.map fun p => p.1 ++ "_" ++ p.2) =
          ((r.author, r.time) :: seenP).map fun p => p.1 ++ "_" ++ p.2 := rfl
      rw [hmap, hrec]

/-- The dedup output is a subsequence of the input (order preserved). -/
theorem dedupGo_sublist : ∀ (l : List Review) (seen : List String),
    List.Sublist (deduplicateGo seen l) l
  | [], _ => List.Sublist.refl _
  | r :: rs, seen => by
    unfold deduplicateGo
    by_cases hc : seen.contains (reviewKey r) = true
    · rw [if_pos hc]
      exact List.Sublist.cons r (dedupGo_sublist rs seen)
    · rw [if_neg hc]
      exact List.Sublist.cons₂ r (dedupGo_sublist rs (reviewKey r :: seen))

/-- Concrete reviews whose concatenated keys collide though author and
timestamp both differ. -/
def collideReview1 : Review := { author := "a_b", rating := 5, time := "c" }

def collideReview2 : Review := { author := "a", rating := 4, time := "b_c" }

/--
C4 counterexample: review identity is the concatenated string
`author + "_" + time`, not the exact (author, timestamp) pair: these two
reviews differ in both author and timestamp, yet deduplication drops the
second, against the claim that every pair differing in author or
timestamp is kept.
-/
theorem dedup_key_collision_counterexample :
    collideReview1.author ≠ collideReview2.author ∧
    collideReview1.time ≠ collideReview2.time ∧
    deduplicateReviews [collideReview1, collideReview2] = [collideReview1] := by
  refine ⟨by decide, by decide, by decide⟩

/--
C4 amended: deduplication keeps the first occurrence per concatenated
`author_time` key, in first-seen order (the output is a subsequence of
the input); whenever no timestamp contains an underscore — true of every
timestamp the system produces, since they are ISO-8601 strings — this
coincides exactly with first-seen deduplication by the (author,
timestamp) pair.
-/
theorem dedup_pair_identity (l : List Review) (h : ∀ r ∈ l, '_' ∉ r.time.data) :
    deduplicateReviews l = specPairDedup l ∧
    List.Sublist (deduplicateReviews l) l := by
  constructor
  · have := dedupGo_eq_pairGo l [] h (by simp)
    simpa [deduplicateReviews, specPairDedup] using this
  · exact dedupGo_sublist l []

/-! ### Standard (offset) pagination: `getReviews` lines 46, 66-114 -/

/-- Place summary as in `types/reviews.ts`. -/
structure PlaceSummary where
  name : String
  rating : Rat
  totalReviews : Int
  url : String
deriving DecidableEq, Repr

/-- Pagination metadata of a `ReviewResponse`; chunked mode omits
`currentPage` and `totalPages`. -/
structure Pagination where
  nextPageToken : Option String
  hasMoreReviews : Bool
  currentPage : Option Nat := none
  totalPages : Option Nat := none
  pageSize : Nat
  totalReviews : Int
deriving DecidableEq, Repr

/-- The `ReviewResponse` envelope. -/
structure ReviewPage where
  success : Bool
  provider : String
  results : List Review
  summary : Option PlaceSummary := none
  pagination : Option Pagination := none
  error : Option ErrorInfo := none
deriving DecidableEq, Repr

/-- Effective page size: `options?.maxResults || DEFAULT_PAGE_SIZE`
(so an absent or zero maxResults falls back to 6). -/
def effectivePageSize (maxResults : Option Nat) : Nat :=
  match maxResults with
  | some n => if n = 0 then 6 else n
  | none => 6

/--
Extraction of the validated `startIndex` from a token string, exactly as
lines 67-82: decode the token, and use `tokenData.startIndex` only when
it is number-typed and non-negative; every failure mode (no token,
undecodable token, missing or wrong-typed or negative field) yields 0.
-/
def decodeStartIndex (pageToken : Option String) : Nat :=
  match pageToken with
  | none => 0
  | some tok =>
    match decodeTokenJson tok with
    | none => 0
    | some j =>
      match j.getProp "startIndex" with
      | some (.num n) => if 0 ≤ n then n.toNat else 0
      | _ => 0

/-- The JSON object serialized into an offset page token (lines 90-95);
an undefined `minimumRating` is omitted by `JSON.stringify`. -/
def offsetTokenJson (startIndex : Nat) (placeId : String) (totalReviews : Nat)
    (minimumRating : Option Int) : Json :=
  .obj ([("startIndex", .num startIndex), ("placeId", .str placeId),
    ("totalReviews", .num totalReviews)] ++
    (match minimumRating with
     | some m => [("minimumRating", .num m)]
     | none => []))

/--
The pagination step of `getReviews` (lines 66-114), over the fixed
merged, deduplicated, rating-filtered list `allReviews` produced by
`getReviewsForPlace`.
-/
def getReviewsPage (allReviews : List Review) (maxResults : Option Nat)
    (pageToken : Option String) (placeId : String) (minimumRating : Option Int)
    (summary : PlaceSummary) : ReviewPage :=
  let pageSize := effectivePageSize maxResults
  let startIndex := decodeStartIndex pageToken
  let endIndex := startIndex + pageSize
  let pageReviews := (allReviews.drop startIndex).take pageSize
  let hasMoreReviews := decide (endIndex < allReviews.length)
  let nextPageToken :=
    if endIndex < allReviews.length then
      some (encodeTokenJson (offsetTokenJson endIndex placeId allReviews.length minimumRating))
    else none
  { success := true, provider := "google", results := pageReviews,
    summary := some summary,
    pagination := some
      { nextPageToken := nextPageToken, hasMoreReviews := hasMoreReviews,
        currentPage := some (startIndex / pageSize + 1),
        totalPages := some ((allReviews.length + pageSize - 1) / pageSize),
        pageSize := pageSize, totalReviews := (allReviews.length : Int) } }

/-- The merged review list of `getReviewsForPlace` on a cold cache
(lines 147-188): concatenate the three sort-order fetches, deduplicate,
then apply the minimum-rating filter to the merged set. -/
def mergedFilteredReviews (relevant newest highest : List Review)
    (minimumRating : Option Int) : List Review :=
  let combined := deduplicateReviews (relevant ++ newest ++ highest)
  match minimumRating with
  | some m => combined.filter fun r => m ≤ r.rating
  | none => combined

/-- Following the offset pagination chain: call, emit the page, and
continue from `nextPageToken` while `hasMoreReviews`. -/
def collectOffsetPages (allReviews : List Review) (maxResults : Option Nat)
    (placeId : String) (minimumRating : Option Int) (summary : PlaceSummary) :
    Nat → Option String → List Review
  | 0, _ => []
  | fuel + 1, tok =>
    let page := getReviewsPage allReviews maxResults tok placeId minimumRating summary
    page.results ++
      (match page.pagination with
       | some pg =>
         if pg.hasMoreReviews then
           collectOffsetPages allReviews maxResults placeId minimumRating summary
             fuel pg.nextPageToken
         else []
       | none => [])

theorem effectivePageSize_pos (maxResults : Option Nat) : 0 < effectivePageSize maxResults := by
  cases maxResults with
  | none => decide
  | some n =>
    by_cases h : n = 0
    · simp [effectivePageSize, h]
    · simp [effectivePageSize, h]
      omega

theorem getProp_offsetTokenJson_startIndex (s : Nat) (placeId : String) (total : Nat)
    (minR : Option Int) :
    (offsetTokenJson s placeId total minR).getProp "startIndex" = some (.num s) := by
  cases minR <;> rfl

/-- An emitted offset cursor decodes back to the startIndex it carries. -/
theorem decodeStartIndex_offsetToken (s : Nat) (placeId : String) (total : Nat)
    (minR : Option Int) :
    decodeStartIndex (some (encodeTokenJson (offsetTokenJson s placeId total minR))) = s := by
  have hstep : ∀ tok : String, decodeStartIndex (some tok) =
      (match decodeTokenJson tok with
       | none => 0
       | some j =>
         match j.getProp "startIndex" with
         | some (.num n) => if 0 ≤ n then n.toNat else 0
         | _ => 0) := fun _ => rfl
  rw [hstep, decodeTokenJson_encode]
  simp [getProp_offsetTokenJson_startIndex]

theorem getReviewsPage_results (allReviews : List Review) (maxResults : Option Nat)
    (pageToken : Option String) (placeId : String) (minR : Option Int)
    (summary : PlaceSummary) :
    (getReviewsPage allReviews maxResults pageToken placeId minR summary).results =
      (allReviews.drop (decodeStartIndex pageToken)).take (effectivePageSize maxResults) := rfl

theorem getReviewsPage_pagination (allReviews : List Review) (maxResults : Option Nat)
    (pageToken : Option String) (placeId : String) (minR : Option Int)
    (summary : PlaceSummary) :
    (getReviewsPage allReviews maxResults pageToken placeId minR summary).pagination =
      some
        { nextPageToken :=
            if decodeStartIndex pageToken + effectivePageSize maxResults < allReviews.length then
              some (encodeTokenJson (offsetTokenJson
                (decodeStartIndex pageToken + effectivePageSize maxResults) placeId
                allReviews.length minR))
            else none,
          hasMoreReviews :=
            decide (decodeStartIndex pageToken + effectivePageSize maxResults <
              allReviews.length),
          currentPage := some (decodeStartIndex pageToken / effectivePageSize maxResults + 1),
          totalPages := some ((allReviews.length + effectivePageSize maxResults - 1) /
            effectivePageSize maxResults),
          pageSize := effectivePageSize maxResults,
          totalReviews := (allReviews.length : Int) } := rfl

theorem collectOffsetPages_drop (allReviews : List Review) (maxResults : Option Nat)
    (placeId : String) (minR : Option Int) (summary : PlaceSummary) :
    ∀ (fuel : Nat) (tok : Option String),
      allReviews.length ≤ decodeStartIndex tok + fuel * effectivePageSize maxResults →
      collectOffsetPages allReviews maxResults placeId minR summary fuel tok =
        allReviews.drop (decodeStartIndex tok)
  | 0, tok, h => by
    simp only [Nat.zero_mul, Nat.add_zero] at h
    rw [collectOffsetPages, List.drop_eq_nil_of_le h]
  | fuel + 1, tok, h => by
    have hp := effectivePageSize_pos maxResults
    set p := effectivePageSize maxResults with hpdef
    set s := decodeStartIndex tok with hsdef
    rw [collectOffsetPages, getReviewsPage_results, getReviewsPage_pagination]
    by_cases hm : s + p < allReviews.length
    · simp only [← hpdef, ← hsdef, decide_eq_true_eq, if_pos hm]
      have hnext := decodeStartIndex_offsetToken (s + p) placeId allReviews.length minR
      have hrec := collectOffsetPages_drop allReviews maxResults placeId minR summary fuel
        (some (encodeTokenJson (offsetTokenJson (s + p) placeId allReviews.length minR)))
        (by
          rw [hnext, ← hpdef]
          rw [Nat.succ_mul] at h
          omega)
      rw [hrec, hnext]
      rw [show allReviews.drop (s + p) = (allReviews.drop s).drop p from by
        rw [List.drop_drop, Nat.add_comm]]
      exact List.take_append_drop p (allReviews.drop s)
    · simp only [← hpdef, ← hsdef, decide_eq_true_eq, if_neg hm, List.append_nil]
      have hlen : (allReviews.drop s).length ≤ p := by
        rw [List.length_drop]
        omega
      exact List.take_of_length_le hlen

/--
C5: offset pagination over the fixed merged, deduplicated,
rating-filtered list: each page is the slice
[startIndex, startIndex + pageSize); hasMoreReviews is true exactly when
startIndex + pageSize < total; the cursor is omitted exactly when no
reviews remain, and when emitted it decodes to startIndex equal to the
previous endIndex; and following the chain from no cursor until
hasMoreReviews is false reproduces the whole list, each review once.
-/
theorem offset_pagination_characterization (allReviews : List Review)
    (maxResults : Option Nat) (pageToken : Option String) (placeId : String)
    (minR : Option Int) (summary : PlaceSummary) :
    (getReviewsPage allReviews maxResults pageToken placeId minR summary).results =
      (allReviews.drop (decodeStartIndex pageToken)).take (effectivePageSize maxResults) ∧
    (∀ pg, (getReviewsPage allReviews maxResults pageToken placeId minR
        summary).pagination = some pg →
      (pg.hasMoreReviews = true ↔
        decodeStartIndex pageToken + effectivePageSize maxResults < allReviews.length) ∧
      (pg.nextPageToken = none ↔
        allReviews.length ≤ decodeStartIndex pageToken + effectivePageSize maxResults) ∧
      (∀ t, pg.nextPageToken = some t →
        decodeStartIndex (some t) =
          decodeStartIndex pageToken + effectivePageSize maxResults)) ∧
    collectOffsetPages allReviews maxResults placeId minR summary
      (allReviews.length + 1) none = allReviews := by
  refine ⟨getReviewsPage_results _ _ _ _ _ _, ?_, ?_⟩
  · intro pg hpg
    rw [getReviewsPage_pagination] at hpg
    obtain rfl : pg = _ := (Option.some.injEq _ _).mp hpg.symm
    refine ⟨by simp, ?_, ?_⟩
    · by_cases hm : decodeStartIndex pageToken + effectivePageSize maxResults <
          allReviews.length
      · simp [hm]
      · simp [hm]
        omega
    · intro t ht
      by_cases hm : decodeStartIndex pageToken + effectivePageSize maxResults <
          allReviews.length
      · simp only [if_pos hm] at ht
        obtain rfl : t = _ := (Option.some.injEq _ _).mp ht.symm
        exact decodeStartIndex_offsetToken _ _ _ _
      · simp [if_neg hm] at ht
  · have hp := effectivePageSize_pos maxResults
    have h1 : (allReviews.length + 1) * 1 ≤
        (allReviews.length + 1) * effectivePageSize maxResults :=
      Nat.mul_le_mul_left _ hp
    have := collectOffsetPages_drop allReviews maxResults placeId minR summary
      (allReviews.length + 1) none (by simp [decodeStartIndex]; omega)
    simpa [decodeStartIndex] using this

/-- Demo fixtures for pagination witnesses. -/
def demoSummary : PlaceSummary := ⟨"Demo Place", 4, 3, "u"⟩

def demoReviews : List Review :=
  [⟨"a", none, 5, "", "t1", none, none⟩,
   ⟨"b", none, 4, "", "t2", none, none⟩,
   ⟨"c", none, 3, "", "t3", none, none⟩]

/-- Witness for C5 at a concrete three-review list with page size 2. -/
theorem offset_pagination_characterization_witness :
    (getReviewsPage demoReviews (some 2) none "pl" none demoSummary).results =
      demoReviews.take 2 ∧
    Option.map Pagination.hasMoreReviews
      (getReviewsPage demoReviews (some 2) none "pl" none demoSummary).pagination =
      some true ∧
    collectOffsetPages demoReviews (some 2) "pl" none demoSummary 4 none = demoReviews := by
  obtain ⟨h1, h2, h3⟩ :=
    offset_pagination_characterization demoReviews (some 2) none "pl" none demoSummary
  refine ⟨by rw [h1]; rfl, ?_, h3⟩
  have hpg := getReviewsPage_pagination demoReviews (some 2) none "pl" none demoSummary
  have hm := (h2 _ hpg).1.mpr (by decide)
  rw [hpg]
  simpa using hm

/-- Witness for C4 at a concrete list with an exact duplicate and a
distinct same-author review. -/
theorem dedup_pair_identity_witness :
    deduplicateReviews [⟨"ann", none, 5, "x", "2024-01-01T00:00:00.000Z", none, none⟩,
        ⟨"ann", none, 5, "x", "2024-01-01T00:00:00.000Z", none, none⟩,
        ⟨"ann", none, 3, "y", "2024-02-01T00:00:00.000Z", none, none⟩] =
      specPairDedup [⟨"ann", none, 5, "x", "2024-01-01T00:00:00.000Z", none, none⟩,
        ⟨"ann", none, 5, "x", "2024-01-01T00:00:00.000Z", none, none⟩,
        ⟨"ann", none, 3, "y", "2024-02-01T00:00:00.000Z", none, none⟩] :=
  (dedup_pair_identity _ (by decide)).1

/-! ### Chunked pagination: `getReviewsChunked` lines 429-586 -/

instance : BEq Json := ⟨Json.beq⟩

instance : LawfulBEq Json where
  eq_of_beq h := (Json.beq_iff_eq _ _).mp h
  rfl := (Json.beq_iff_eq _ _).mpr rfl

/-- JavaScript `a || b` on a possibly-undefined (`none`) value. -/
def jsOr (j : Option Json) (dflt : Json) : Json :=
  match j with
  | some v => if v.truthy then v else dflt
  | none => dflt

/-- First-seen deduplication of JSON values, as `new Set` iteration
order keeps the first of equal elements. -/
def dedupJsonGo (seen : List Json) : List Json → List Json
  | [] => []
  | x :: xs =>
    if seen.contains x then dedupJsonGo seen xs
    else x :: dedupJsonGo (x :: seen) xs

/-- Elements of a `Set` built from a list, in insertion order. -/
def dedupJson (l : List Json) : List Json := dedupJsonGo [] l

/-- Model of `new Set(x)`: arrays and strings are iterable (a string
iterates its characters); everything else throws a TypeError. -/
def jsNewSet : Json → Except Unit (List Json)
  | .arr es => .ok (dedupJson es)
  | .str s => .ok (dedupJson (s.data.map fun c => Json.str (String.mk [c])))
  | _ => .error ()

/-- JavaScript whitespace trimmed by `Number(string)`. -/
def isJsWs (c : Char) : Bool :=
  c == ' ' || c == Char.ofNat 9 || c == Char.ofNat 10 || c == Char.ofNat 13 ||
    c == Char.ofNat 11 || c == Char.ofNat 12

/-- Model of `Number(string)` restricted to the integer grammar
(`none` stands for NaN; fractional, exponent and hex forms are treated
as NaN, consistently with the integer-only JSON number model). -/
def jsStringToNumber (s : String) : Option Int :=
  let t := (((s.data.dropWhile isJsWs).reverse).dropWhile isJsWs).reverse
  match t with
  | [] => some 0
  | '-' :: ds =>
    if ds ≠ [] ∧ ds.all Char.isDigit then some (-(digitsToNat ds : Int)) else none
  | '+' :: ds =>
    if ds ≠ [] ∧ ds.all Char.isDigit then some ((digitsToNat ds : Int)) else none
  | ds => if ds.all Char.isDigit then some ((digitsToNat ds : Int)) else none

/-- Model of JavaScript `ToNumber` on a parsed JSON value (`none` is
NaN; multi-element arrays and objects convert to NaN). -/
def jsToNumber : Json → Option Int
  | .null => some 0
  | .bool b => some (if b then 1 else 0)
  | .num n => some n
  | .str s => jsStringToNumber s
  | .arr [] => some 0
  | .arr [x] =>
    match x with
    | .num n => some n
    | .str s => jsStringToNumber s
    | .null => some 0
    | _ => none
  | .arr _ => none
  | .obj _ => none

/-- Model of `x.length > 0`: arrays and strings have a length, an
object may carry a "length" property, anything else gives undefined
(and `undefined > 0` is false). -/
def jsLengthGtZero (j : Json) : Bool :=
  match j with
  | .arr es => decide (0 < es.length)
  | .str s => decide (0 < s.length)
  | .obj fields =>
    match fields.reverse.lookup "length" with
    | some v =>
      match jsToNumber v with
      | some n => decide (0 < n)
      | none => false
    | none => false
  | _ => false

/-- Model of `x.includes(m)` with a string argument: array membership
(SameValueZero), string substring test; anything else throws. -/
def jsIncludes (j : Json) (m : String) : Except Unit Bool :=
  match j with
  | .arr es => .ok (es.contains (Json.str m))
  | .str s => .ok (containsSub s.data m.data)
  | _ => .error ()

/-- Model of `x.push(m)`: arrays append; anything else throws. -/
def jsPush (j : Json) (m : String) : Except Unit Json :=
  match j with
  | .arr es => .ok (.arr (es ++ [Json.str m]))
  | _ => .error ()

/-- Model of `review.rating < tokenData.minimumRating` (line 516):
false when minimumRating is undefined or converts to NaN. -/
def ratingBelowJs (rating : Int) (minR : Option Json) : Bool :=
  match minR with
  | none => false
  | some j =>
    match jsToNumber j with
    | some m => decide (rating < m)
    | none => false

/-- Leap year in the Gregorian calendar. -/
def isLeapYear (y : Nat) : Bool :=
  (y % 4 == 0 && y % 100 != 0) || y % 400 == 0

/-- Number of days of a month. -/
def daysInMonth (y m : Nat) : Nat :=
  if m = 2 then (if isLeapYear y then 29 else 28)
  else if m = 4 ∨ m = 6 ∨ m = 9 ∨ m = 11 then 30
  else 31

/-- Days since 1970-01-01 of a civil date with year at least 1970. -/
def daysFromCivil1970 (y m d : Nat) : Int :=
  let y' := if m ≤ 2 then y - 1 else y
  let era := y' / 400
  let yoe := y' % 400
  let doy := (153 * (if 2 < m then m - 3 else m + 9) + 2) / 5 + d - 1
  let doe := yoe * 365 + yoe / 4 - yoe / 100 + doy
  (era * 146097 + doe : Int) - 719468

/-- Value of two decimal digit characters. -/
def twoDigits (a b : Char) : Nat := (a.toNat - 48) * 10 + (b.toNat - 48)

/-- Model of `new Date(s).getTime()` followed by serialization:
epoch milliseconds for a string in the exact `toISOString` format
(`YYYY-MM-DDTHH:MM:SS.mmmZ`, year at least 1970, fields in range), and
JSON `null` otherwise (`JSON.stringify(NaN)` is `null`). The strings
this system stores in `review.time` are always `toISOString` outputs. -/
def dateGetTimeJson (s : String) : Json :=
  match s.data with
  | [y1, y2, y3, y4, '-', mo1, mo2, '-', d1, d2, 'T',
     h1, h2, ':', mi1, mi2, ':', s1, s2, '.', ms1, ms2, ms3, 'Z'] =>
    if ([y1, y2, y3, y4, mo1, mo2, d1, d2, h1, h2, mi1, mi2, s1, s2,
        ms1, ms2, ms3].all Char.isDigit) then
      let y := twoDigits y1 y2 * 100 + twoDigits y3 y4
      let mo := twoDigits mo1 mo2
      let d := twoDigits d1 d2
      let h := twoDigits h1 h2
      let mi := twoDigits mi1 mi2
      let se := twoDigits s1 s2
      let ms := twoDigits ms1 ms2 * 10 + (ms3.toNat - 48)
      if 1970 ≤ y ∧ 1 ≤ mo ∧ mo ≤ 12 ∧ 1 ≤ d ∧ d ≤ daysInMonth y mo ∧
          h < 24 ∧ mi < 60 ∧ se < 60 then
        .num (daysFromCivil1970 y mo d * 86400000 +
          ((h * 3600000 + mi * 60000 + se * 1000 + ms : Nat) : Int))
      else .null
    else .null
  | _ => .null

/-- Decoded chunk-token state (`tokenData`, lines 455-478). -/
structure ChunkTokenState where
  sortMethod : Json
  fetchedMethods : Json
  reviewIds : List Json
  lastReviewTime : Json
  minimumRating : Option Json
deriving DecidableEq

/-- The default `tokenData` (lines 455-461). -/
def defaultChunkState (optMinRating : Option Int) : ChunkTokenState :=
  { sortMethod := .str "most_relevant", fetchedMethods := .arr [], reviewIds := [],
    lastReviewTime := .num 0, minimumRating := optMinRating.map fun m => Json.num m }

/--
Decoding of the chunk token (lines 463-478): any throw while decoding —
unparseable JSON, or `new Set` applied to a non-iterable `reviewIds` —
is caught and leaves the default state; otherwise each field is read
with its `||` default, and `minimumRating` is taken from the token as
is (possibly absent).
-/
def decodeChunkState (pageToken : Option String) (optMinRating : Option Int) :
    ChunkTokenState :=
  match pageToken with
  | none => defaultChunkState optMinRating
  | some tok =>
    match decodeTokenJson tok with
    | none => defaultChunkState optMinRating
    | some j =>
      match jsNewSet (jsOr (j.getProp "reviewIds") (.arr [])) with
      | .error _ => defaultChunkState optMinRating
      | .ok ids =>
        { sortMethod := jsOr (j.getProp "sortMethod") (.str "most_relevant"),
          fetchedMethods := jsOr (j.getProp "fetchedMethods") (.arr []),
          reviewIds := ids,
          lastReviewTime := jsOr (j.getProp "lastReviewTime") (.num 0),
          minimumRating := j.getProp "minimumRating" }

/-- The three sort orders, in rotation order. -/
def allSortMethods : List String := ["most_relevant", "newest", "highest_rating"]

/-- Monadic filter of the untried sort methods (line 486); throws if
`fetchedMethods` has a truthy value without `includes`. -/
def filterNotIncluded (fm : Json) : List String → Except Unit (List String)
  | [] => .ok []
  | m :: ms => do
    let b ← jsIncludes fm m
    let rest ← filterNotIncluded fm ms
    pure (if b then rest else m :: rest)

/-- Selection of the candidate sort methods (lines 481-491). -/
def selectSortMethods (fm : Json) : Except Unit (List String) :=
  if jsLengthGtZero fm then do
    let filtered ← filterNotIncluded fm allSortMethods
    pure (if filtered.isEmpty then ["most_relevant"] else filtered)
  else pure allSortMethods

/-- Update of `fetchedMethods` with the used sort order (lines 535-537). -/
def updateFetchedMethods (fm : Json) (current : String) : Except Unit Json := do
  let b ← jsIncludes fm current
  if b then pure fm else jsPush fm current

/-- The collection loop (lines 505-531): skip already-seen keys and
below-minimum ratings, accumulate until the page is full, tracking the
seen-key set. -/
def chunkLoop (minR : Option Json) : List Review → List Json → Nat → List Review × List Json
  | [], ids, _ => ([], ids)
  | r :: rs, ids, slots =>
    if ids.contains (Json.str (reviewKey r)) then chunkLoop minR rs ids slots
    else if ratingBelowJs r.rating minR then chunkLoop minR rs ids slots
    else
      let ids' := ids ++ [Json.str (reviewKey r)]
      if slots ≤ 1 then ([r], ids')
      else
        let rest := chunkLoop minR rs ids' (slots - 1)
        (r :: rest.1, rest.2)

/-- The JSON object serialized into a chunk page token (lines 548-554);
an undefined `minimumRating` is omitted by `JSON.stringify`. -/
def chunkTokenJson (sortMethod : String) (fetchedMethods : Json) (reviewIds : List Json)
    (lastReviewTime : Json) (minimumRating : Option Json) : Json :=
  .obj ([("sortMethod", .str sortMethod), ("fetchedMethods", fetchedMethods),
    ("reviewIds", .arr reviewIds), ("lastReviewTime", lastReviewTime)] ++
    (match minimumRating with
     | some j => [("minimumRating", j)]
     | none => []))

/-- The serialized `lastReviewTime` (lines 552-553). -/
def chunkLastReviewTime (uniq : List Review) : Json :=
  match uniq.getLast? with
  | some r => dateGetTimeJson r.time
  | none => .num 0

/-- One upstream fetch outcome (`fetchReviewsWithSort` resolved value). -/
structure FetchResult where
  success : Bool
  results : List Review
  error : Option ErrorInfo := none
deriving DecidableEq, Repr

/-- The failure response the outer catch produces for a TypeError
raised by the dynamic `fetchedMethods` operations. -/
def typeErrorPage : ReviewPage :=
  { success := false, provider := "google", results := [], error := some ⟨"UNKNOWN", "TypeError"⟩ }

/--
Embedding of `getReviewsChunked` (lines 429-586) after a successful
place-details fetch, parameterized by the upstream response for each
sort order. A `.error` result is a TypeError escaping to the outer
catch.
-/
def getReviewsChunkedE (fetchFor : String → FetchResult) (maxResults : Option Nat)
    (optMinRating : Option Int) (pageToken : Option String) (summary : PlaceSummary) :
    Except Unit ReviewPage := do
  let pageSize := effectivePageSize maxResults
  let tokenData := decodeChunkState pageToken optMinRating
  let nextSortMethods ← selectSortMethods tokenData.fetchedMethods
  let currentSortMethod := nextSortMethods.headD "most_relevant"
  let fr := fetchFor currentSortMethod
  if fr.success = false then
    pure { success := false, provider := "google", results := fr.results,
           error := fr.error }
  else
    let lp := chunkLoop tokenData.minimumRating fr.results tokenData.reviewIds pageSize
    let fm' ← updateFetchedMethods tokenData.fetchedMethods currentSortMethod
    let hasMoreReviews :=
      decide (1 < nextSortMethods.length) || decide (lp.1.length < fr.results.length)
    let nextPageToken :=
      if hasMoreReviews then
        some (encodeTokenJson (chunkTokenJson currentSortMethod fm' lp.2
          (chunkLastReviewTime lp.1) tokenData.minimumRating))
      else none
    pure { success := true, provider := "google", results := lp.1,
           summary := some summary,
           pagination := some
             { nextPageToken := nextPageToken, hasMoreReviews := hasMoreReviews,
               pageSize := pageSize, totalReviews := summary.totalReviews } }

/-- Total form of `getReviewsChunked`: a TypeError is caught by the
outer try/catch and becomes a failure response. -/
def getReviewsChunked (fetchFor : String → FetchResult) (maxResults : Option Nat)
    (optMinRating : Option Int) (pageToken : Option String) (summary : PlaceSummary) :
    ReviewPage :=
  match getReviewsChunkedE fetchFor maxResults optMinRating pageToken summary with
  | .ok page => page
  | .error _ => typeErrorPage

/-- Place-details gate of `getReviewsChunked` (lines 445-450): a failed
details fetch is returned before any token handling. -/
def getReviewsChunkedFull (details : Except ErrorInfo PlaceSummary)
    (fetchFor : String → FetchResult) (maxResults : Option Nat) (optMinRating : Option Int)
    (pageToken : Option String) : ReviewPage :=
  match details with
  | .error e => { success := false, provider := "google", results := [], error := some e }
  | .ok summary => getReviewsChunked fetchFor maxResults optMinRating pageToken summary

/-! ### C6: cursor decoding totality and graceful degradation -/

/-- The validated startIndex a token supplies: present only when the
token decodes and its `startIndex` is number-typed and non-negative. -/
def validStartIndex (tok : String) : Option Nat :=
  match decodeTokenJson tok with
  | none => none
  | some j =>
    match j.getProp "startIndex" with
    | some (.num n) => if 0 ≤ n then some n.toNat else none
    | _ => none

theorem decodeStartIndex_eq_validStartIndex (tok : String) :
    decodeStartIndex (some tok) = (validStartIndex tok).getD 0 := by
  show (match decodeTokenJson tok with
        | none => 0
        | some j =>
          match j.getProp "startIndex" with
          | some (.num n) => if 0 ≤ n then n.toNat else 0
          | _ => 0) = (validStartIndex tok).getD 0
  unfold validStartIndex
  cases decodeTokenJson tok with
  | none => rfl
  | some j =>
    show (match j.getProp "startIndex" with
          | some (.num n) => if 0 ≤ n then n.toNat else 0
          | _ => 0) =
        (match j.getProp "startIndex" with
          | some (.num n) => if 0 ≤ n then some n.toNat else none
          | _ => none).getD 0
    cases hp : j.getProp "startIndex" with
    | none => rfl
    | some v =>
      cases v with
      | num n =>
        by_cases hn : 0 ≤ n
        · simp [hn]
        · simp [hn]
      | str s => rfl
      | bool b => rfl
      | arr l => rfl
      | obj l => rfl
      | null => rfl

/-- A bad chunk token: structurally invalid (fetchedMethods is a
string), yet decodable JSON, so the inner catch does not fire. -/
def badChunkToken : String := encodeTokenJson (.obj [("fetchedMethods", .str "zzz")])

/--
C6 counterexample: graceful degradation fails in chunked mode for a
structurally invalid token: a decodable token whose `fetchedMethods` is
a truthy non-array survives decoding, then crashes `push` with a caught
TypeError, so `getReviewsChunked` returns a failure outcome instead of
behaving as a fresh continuation chain.
-/
theorem cursor_decode_graceful_counterexample :
    (getReviewsChunked (fun _ => ⟨true, demoReviews, none⟩) none none
      (some badChunkToken) demoSummary).success = false ∧
    (getReviewsChunked (fun _ => ⟨true, demoReviews, none⟩) none none
      none demoSummary).success = true := by
  constructor
  · rfl
  · rfl

/--
C6 amended: cursor decoding is total and the offset mode degrades
gracefully on every malformed token: `getReviewsPage` behaves exactly as
if no cursor had been supplied whenever the token carries no valid
startIndex, and a supplied startIndex is used only when present,
number-typed and non-negative. `getReviewsChunked` degrades to a fresh
chain for tokens whose decoding throws (non-JSON content, or a
non-iterable `reviewIds`); a decodable token with a truthy non-array
`fetchedMethods` instead yields a caught-TypeError failure outcome.
-/
theorem cursor_decode_graceful_amended :
    (∀ (tok : String) (allR : List Review) (maxR : Option Nat) (placeId : String)
        (minR : Option Int) (summary : PlaceSummary), validStartIndex tok = none →
      getReviewsPage allR maxR (some tok) placeId minR summary =
        getReviewsPage allR maxR none placeId minR summary) ∧
    (∀ tok : String, decodeStartIndex (some tok) = (validStartIndex tok).getD 0) ∧
    (∀ (tok : String) (optMinR : Option Int) (fetchFor : String → FetchResult)
        (maxR : Option Nat) (summary : PlaceSummary), decodeTokenJson tok = none →
      getReviewsChunked fetchFor maxR optMinR (some tok) summary =
        getReviewsChunked fetchFor maxR optMinR none summary) ∧
    (∀ (tok : String) (j : Json) (optMinR : Option Int), decodeTokenJson tok = some j →
      jsNewSet (jsOr (j.getProp "reviewIds") (.arr [])) = .error () →
      decodeChunkState (some tok) optMinR = defaultChunkState optMinR) := by
  refine ⟨?_, decodeStartIndex_eq_validStartIndex, ?_, ?_⟩
  · intro tok allR maxR placeId minR summary hval
    have hidx : decodeStartIndex (some tok) = decodeStartIndex none := by
      rw [decodeStartIndex_eq_validStartIndex, hval]
      rfl
    unfold getReviewsPage
    rw [hidx]
  · intro tok optMinR fetchFor maxR summary hdec
    have hstate : decodeChunkState (some tok) optMinR = decodeChunkState none optMinR := by
      show (match decodeTokenJson tok with
            | none => defaultChunkState optMinR
            | some j =>
              match jsNewSet (jsOr (j.getProp "reviewIds") (.arr [])) with
              | .error _ => defaultChunkState optMinR
              | .ok ids =>
                { sortMethod := jsOr (j.getProp "sortMethod") (.str "most_relevant"),
                  fetchedMethods := jsOr (j.getProp "fetchedMethods") (.arr []),
                  reviewIds := ids,
                  lastReviewTime := jsOr (j.getProp "lastReviewTime") (.num 0),
                  minimumRating := j.getProp "minimumRating" }) =
          decodeChunkState none optMinR
      rw [hdec]
      rfl
    unfold getReviewsChunked getReviewsChunkedE
    rw [hstate]
  · intro tok j optMinR hdec hset
    show (match decodeTokenJson tok with
          | none => defaultChunkState optMinR
          | some j =>
            match jsNewSet (jsOr (j.getProp "reviewIds") (.arr [])) with
            | .error _ => defaultChunkState optMinR
            | .ok ids =>
              { sortMethod := jsOr (j.getProp "sortMethod") (.str "most_relevant"),
                fetchedMethods := jsOr (j.getProp "fetchedMethods") (.arr []),
                reviewIds := ids,
                lastReviewTime := jsOr (j.getProp "lastReviewTime") (.num 0),
                minimumRating := j.getProp "minimumRating" }) =
        defaultChunkState optMinR
    rw [hdec]
    show (match jsNewSet (jsOr (j.getProp "reviewIds") (.arr [])) with
          | .error _ => defaultChunkState optMinR
          | .ok ids =>
            { sortMethod := jsOr (j.getProp "sortMethod") (.str "most_relevant"),
              fetchedMethods := jsOr (j.getProp "fetchedMethods") (.arr []),
              reviewIds := ids,
              lastReviewTime := jsOr (j.getProp "lastReviewTime") (.num 0),
              minimumRating := j.getProp "minimumRating" }) =
      defaultChunkState optMinR
    rw [hset]

/-- Witness for C6 at concrete malformed tokens: garbage base64, valid
base64 of non-JSON text, valid JSON without a usable startIndex, and a
negative startIndex all act as no cursor in offset mode; a non-JSON
token leaves chunked mode on a fresh chain. -/
theorem cursor_decode_graceful_witness :
    getReviewsPage demoReviews (some 2) (some "!!!not-base64!!!") "pl" none demoSummary =
      getReviewsPage demoReviews (some 2) none "pl" none demoSummary ∧
    getReviewsPage demoReviews (some 2) (some "bm90anNvbg==") "pl" none demoSummary =
      getReviewsPage demoReviews (some 2) none "pl" none demoSummary ∧
    getReviewsPage demoReviews (some 2)
        (some (encodeTokenJson (.obj [("startIndex", .str "3")]))) "pl" none demoSummary =
      getReviewsPage demoReviews (some 2) none "pl" none demoSummary ∧
    getReviewsPage demoReviews (some 2)
        (some (encodeTokenJson (.obj [("startIndex", .num (-2))]))) "pl" none demoSummary =
      getReviewsPage demoReviews (some 2) none "pl" none demoSummary ∧
    getReviewsChunked (fun _ => ⟨true, demoReviews, none⟩) none none
        (some "bm90anNvbg==") demoSummary =
      getReviewsChunked (fun _ => ⟨true, demoReviews, none⟩) none none none demoSummary := by
  obtain ⟨h1, _, h3, _⟩ := cursor_decode_graceful_amended
  refine ⟨h1 _ _ _ _ _ _ (by rfl), h1 _ _ _ _ _ _ (by rfl), h1 _ _ _ _ _ _ (by rfl),
    h1 _ _ _ _ _ _ (by rfl), h3 _ _ _ _ _ (by rfl)⟩

/-! ### C7: cross-mode cursors -/

/--
C7 counterexample: there is no explicit discriminant, and an offset-mode
token is in fact partially accepted as chunked continuation state: its
`minimumRating` field is adopted (here overriding the absent request
option), instead of the token being rejected.
-/
theorem cursor_cross_mode_counterexample :
    (decodeChunkState (some (encodeTokenJson (offsetTokenJson 6 "p" 17 (some 5))))
      none).minimumRating = some (.num 5) ∧
    (decodeChunkState none none).minimumRating = none := by
  constructor
  · rfl
  · rfl

theorem getProp_offsetTokenJson_fields (s : Nat) (placeId : String) (total : Nat)
    (minR : Option Int) :
    (offsetTokenJson s placeId total minR).getProp "sortMethod" = none ∧
    (offsetTokenJson s placeId total minR).getProp "fetchedMethods" = none ∧
    (offsetTokenJson s placeId total minR).getProp "reviewIds" = none ∧
    (offsetTokenJson s placeId total minR).getProp "lastReviewTime" = none ∧
    (offsetTokenJson s placeId total minR).getProp "minimumRating" =
      minR.map (fun m => Json.num m) := by
  cases minR <;> exact ⟨rfl, rfl, rfl, rfl, rfl⟩

theorem getProp_chunkTokenJson_startIndex (sm : String) (fm : Json) (ids : List Json)
    (lrt : Json) (minR : Option Json) :
    (chunkTokenJson sm fm ids lrt minR).getProp "startIndex" = none := by
  cases minR <;> rfl

/--
C7 amended: the two cursor variants carry no explicit discriminant and
are distinguished only by field shape: a chunk-mode token has no
`startIndex`, so the standard mode treats it as no cursor (first page);
an offset-mode token has none of `sortMethod`, `fetchedMethods`,
`reviewIds`, `lastReviewTime`, so the chunked mode starts a fresh chain
from it — except that it adopts the offset token's `minimumRating`
field as continuation state.
-/
theorem cursor_cross_mode_amended :
    (∀ (sm : String) (fm : Json) (ids : List Json) (lrt : Json) (minR : Option Json),
      decodeStartIndex (some (encodeTokenJson (chunkTokenJson sm fm ids lrt minR))) = 0) ∧
    (∀ (s : Nat) (placeId : String) (total : Nat) (minR : Option Int) (optMinR2 : Option Int),
      decodeChunkState (some (encodeTokenJson (offsetTokenJson s placeId total minR)))
        optMinR2 =
        { defaultChunkState optMinR2 with minimumRating := minR.map fun m => Json.num m }) := by
  constructor
  · intro sm fm ids lrt minR
    have hstep : ∀ tok : String, decodeStartIndex (some tok) =
        (match decodeTokenJson tok with
         | none => 0
         | some j =>
           match j.getProp "startIndex" with
           | some (.num n) => if 0 ≤ n then n.toNat else 0
           | _ => 0) := fun _ => rfl
    rw [hstep, decodeTokenJson_encode]
    simp [getProp_chunkTokenJson_startIndex]
  · intro s placeId total minR optMinR2
    obtain ⟨h1, h2, h3, h4, h5⟩ := getProp_offsetTokenJson_fields s placeId total minR
    have hstep : ∀ tok : String, decodeChunkState (some tok) optMinR2 =
        (match decodeTokenJson tok with
         | none => defaultChunkState optMinR2
         | some j =>
           match jsNewSet (jsOr (j.getProp "reviewIds") (.arr [])) with
           | .error _ => defaultChunkState optMinR2
           | .ok ids =>
             { sortMethod := jsOr (j.getProp "sortMethod") (.str "most_relevant"),
               fetchedMethods := jsOr (j.getProp "fetchedMethods") (.arr []),
               reviewIds := ids,
               lastReviewTime := jsOr (j.getProp "lastReviewTime") (.num 0),
               minimumRating := j.getProp "minimumRating" }) := fun _ => rfl
    rw [hstep, decodeTokenJson_encode]
    simp only [h1, h2, h3, h4, h5]
    rfl

/-! ### C8, C9: chunked-mode page structure -/

/-- The candidate sort methods computed from an array-valued
`fetchedMethods` (lines 481-491): the untried ones, falling back to
`most_relevant` when all are tried, and the full rotation for an empty
array. -/
def chunkNextSortMethods (ms : List Json) : List String :=
  let f := allSortMethods.filter fun m => !(ms.contains (Json.str m))
  if f.isEmpty then ["most_relevant"] else f

/-- The sort order fetched by a call whose token state carries an
array-valued `fetchedMethods`. -/
def chunkCurrent (ms : List Json) : String :=
  (chunkNextSortMethods ms).headD "most_relevant"

/-- The `fetchedMethods` array after the call records the used sort
order (lines 535-537). -/
def chunkFetchedAfter (ms : List Json) : List Json :=
  if ms.contains (Json.str (chunkCurrent ms)) then ms
  else ms ++ [Json.str (chunkCurrent ms)]

/-- The successful chunked page, written out explicitly: the value
`getReviewsChunked` returns once sort selection produced `nsm`, the
fetch succeeded and recording the sort method produced `fm2`. -/
def chunkSuccessPage (f : String → FetchResult) (maxR : Option Nat) (optMinR : Option Int)
    (tok : Option String) (summary : PlaceSummary) (nsm : List String) (fm2 : Json) :
    ReviewPage :=
  let st := decodeChunkState tok optMinR
  let cur := nsm.headD "most_relevant"
  let lp := chunkLoop st.minimumRating (f cur).results st.reviewIds (effectivePageSize maxR)
  let hasMore := decide (1 < nsm.length) || decide (lp.1.length < (f cur).results.length)
  { success := true, provider := "google", results := lp.1, summary := some summary,
    pagination := some
      { nextPageToken := if hasMore then
          some (encodeTokenJson (chunkTokenJson cur fm2 lp.2 (chunkLastReviewTime lp.1)
            st.minimumRating)) else none,
        hasMoreReviews := hasMore, pageSize := effectivePageSize maxR,
        totalReviews := summary.totalReviews } }

theorem filterNotIncluded_arr (ms : List Json) (l : List String) :
    filterNotIncluded (.arr ms) l =
      .ok (l.filter fun m => !(ms.contains (Json.str m))) := by
  induction l with
  | nil => rfl
  | cons m l ih =>
    have hstep : filterNotIncluded (.arr ms) (m :: l) =
        Except.bind (filterNotIncluded (.arr ms) l)
          (fun rest => .ok (if ms.contains (Json.str m) = true then rest else m :: rest)) :=
      rfl
    rw [hstep, ih]
    cases h : ms.contains (Json.str m) <;> simp at h <;>
      simp [Except.bind, List.filter, h]

theorem selectSortMethods_arr (ms : List Json) :
    selectSortMethods (.arr ms) = .ok (chunkNextSortMethods ms) := by
  cases ms with
  | nil => rfl
  | cons x xs =>
    have hstep : selectSortMethods (.arr (x :: xs)) =
        Except.bind (filterNotIncluded (.arr (x :: xs)) allSortMethods)
          (fun filtered =>
            .ok (if filtered.isEmpty = true then ["most_relevant"] else filtered)) := by
      unfold selectSortMethods
      rw [if_pos (show jsLengthGtZero (.arr (x :: xs)) = true by simp [jsLengthGtZero])]
      rfl
    rw [hstep, filterNotIncluded_arr]
    rfl

theorem updateFetchedMethods_arr (ms : List Json) (cur : String) :
    updateFetchedMethods (.arr ms) cur =
      .ok (.arr (if ms.contains (Json.str cur) then ms else ms ++ [Json.str cur])) := by
  have hstep : updateFetchedMethods (.arr ms) cur =
      (if ms.contains (Json.str cur) = true then pure (.arr ms)
       else jsPush (.arr ms) cur) := rfl
  rw [hstep]
  cases h : ms.contains (Json.str cur) <;> simp [h, jsPush] <;> rfl

/-- The continuation of `getReviewsChunkedE` after sort selection. -/
def chunkAfterSelect (f : String → FetchResult) (maxR : Option Nat) (optMinR : Option Int)
    (tok : Option String) (summary : PlaceSummary) (nsm : List String) :
    Except Unit ReviewPage :=
  if (f (nsm.headD "most_relevant")).success = false then
    pure { success := false, provider := "google",
           results := (f (nsm.headD "most_relevant")).results,
           error := (f (nsm.headD "most_relevant")).error }
  else
    Except.bind (updateFetchedMethods (decodeChunkState tok optMinR).fetchedMethods
        (nsm.headD "most_relevant"))
      (fun fm2 => pure (chunkSuccessPage f maxR optMinR tok summary nsm fm2))

theorem getReviewsChunkedE_eq (f : String → FetchResult) (maxR : Option Nat)
    (optMinR : Option Int) (tok : Option String) (summary : PlaceSummary) :
    getReviewsChunkedE f maxR optMinR tok summary =
      Except.bind (selectSortMethods (decodeChunkState tok optMinR).fetchedMethods)
        (chunkAfterSelect f maxR optMinR tok summary) := rfl

/--
Case analysis of a chunked call: either a TypeError escaped from the
dynamic `fetchedMethods` operations and the outer catch produced the
failure page, or the upstream fetch failed and its failure is passed
through, or the call succeeded and the page has the explicit successful
shape.
-/
theorem getReviewsChunked_shape (f : String → FetchResult) (maxR : Option Nat)
    (optMinR : Option Int) (tok : Option String) (summary : PlaceSummary) :
    ((selectSortMethods (decodeChunkState tok optMinR).fetchedMethods = .error () ∨
      (∃ nsm, selectSortMethods (decodeChunkState tok optMinR).fetchedMethods = .ok nsm ∧
        (f (nsm.headD "most_relevant")).success = true ∧
        updateFetchedMethods (decodeChunkState tok optMinR).fetchedMethods
          (nsm.headD "most_relevant") = .error ())) ∧
      getReviewsChunked f maxR optMinR tok summary = typeErrorPage) ∨
    (∃ nsm, selectSortMethods (decodeChunkState tok optMinR).fetchedMethods = .ok nsm ∧
      (f (nsm.headD "most_relevant")).success = false ∧
      getReviewsChunked f maxR optMinR tok summary =
        { success := false, provider := "google",
          results := (f (nsm.headD "most_relevant")).results,
          error := (f (nsm.headD "most_relevant")).error }) ∨
    (∃ nsm fm2, selectSortMethods (decodeChunkState tok optMinR).fetchedMethods = .ok nsm ∧
      (f (nsm.headD "most_relevant")).success = true ∧
      updateFetchedMethods (decodeChunkState tok optMinR).fetchedMethods
        (nsm.headD "most_relevant") = .ok fm2 ∧
      getReviewsChunked f maxR optMinR tok summary =
        chunkSuccessPage f maxR optMinR tok summary nsm fm2) := by
  cases hsel : selectSortMethods (decodeChunkState tok optMinR).fetchedMethods with
  | error e =>
    left
    cases e
    refine ⟨Or.inl rfl, ?_⟩
    unfold getReviewsChunked
    rw [getReviewsChunkedE_eq, hsel]
    rfl
  | ok nsm =>
    by_cases hs : (f (nsm.headD "most_relevant")).success = false
    · right; left
      refine ⟨nsm, rfl, hs, ?_⟩
      unfold getReviewsChunked
      rw [getReviewsChunkedE_eq, hsel]
      have hred : Except.bind (Except.ok nsm) (chunkAfterSelect f maxR optMinR tok summary) =
          chunkAfterSelect f maxR optMinR tok summary nsm := rfl
      rw [hred]
      unfold chunkAfterSelect
      rw [if_pos hs]
      rfl
    · have hb : (f (nsm.headD "most_relevant")).success = true := by
        revert hs; cases (f (nsm.headD "most_relevant")).success <;> simp
      cases hupd : updateFetchedMethods (decodeChunkState tok optMinR).fetchedMethods
          (nsm.headD "most_relevant") with
      | error e =>
        left
        cases e
        refine ⟨Or.inr ⟨nsm, rfl, hb, hupd⟩, ?_⟩
        unfold getReviewsChunked
        rw [getReviewsChunkedE_eq, hsel]
        have hred : Except.bind (Except.ok nsm) (chunkAfterSelect f maxR optMinR tok summary) =
            chunkAfterSelect f maxR optMinR tok summary nsm := rfl
        rw [hred]
        unfold chunkAfterSelect
        rw [if_neg hs, hupd]
        rfl
      | ok fm2 =>
        right; right
        refine ⟨nsm, fm2, rfl, hb, hupd, ?_⟩
        unfold getReviewsChunked
        rw [getReviewsChunkedE_eq, hsel]
        have hred : Except.bind (Except.ok nsm) (chunkAfterSelect f maxR optMinR tok summary) =
            chunkAfterSelect f maxR optMinR tok summary nsm := rfl
        rw [hred]
        unfold chunkAfterSelect
        rw [if_neg hs, hupd]
        rfl

/-- For an array-valued `fetchedMethods`, more than one candidate sort
method is selected exactly when some sort method remains untried even
after the call records the one it used. -/
theorem nsm_length_iff_untried (ms : List Json) :
    1 < (chunkNextSortMethods ms).length ↔
      ∃ m ∈ allSortMethods, Json.str m ∉ chunkFetchedAfter ms := by
  by_cases h1 : Json.str "most_relevant" ∈ ms <;>
    by_cases h2 : Json.str "newest" ∈ ms <;>
      by_cases h3 : Json.str "highest_rating" ∈ ms <;>
        simp [chunkNextSortMethods, chunkFetchedAfter, chunkCurrent, allSortMethods,
          List.filter, h1, h2, h3]

/-- A chunked call on an array-valued `fetchedMethods` token state with
a successful fetch produces exactly the explicit successful page. -/
theorem getReviewsChunked_arr (f : String → FetchResult) (maxR : Option Nat)
    (optMinR : Option Int) (tok : Option String) (summary : PlaceSummary) (ms : List Json)
    (hfm : (decodeChunkState tok optMinR).fetchedMethods = .arr ms)
    (hb : (f (chunkCurrent ms)).success = true) :
    getReviewsChunked f maxR optMinR tok summary =
      chunkSuccessPage f maxR optMinR tok summary (chunkNextSortMethods ms)
        (.arr (chunkFetchedAfter ms)) := by
  have hsel : selectSortMethods (decodeChunkState tok optMinR).fetchedMethods =
      .ok (chunkNextSortMethods ms) := by rw [hfm]; exact selectSortMethods_arr ms
  have hcur : (chunkNextSortMethods ms).headD "most_relevant" = chunkCurrent ms := rfl
  have hupd : updateFetchedMethods (decodeChunkState tok optMinR).fetchedMethods
      (chunkCurrent ms) = .ok (.arr (chunkFetchedAfter ms)) := by
    rw [hfm, updateFetchedMethods_arr]
    rfl
  rcases getReviewsChunked_shape f maxR optMinR tok summary with
    ⟨herr, hpage⟩ | ⟨nsm, hsel', hfalse, hpage⟩ | ⟨nsm, fm2, hsel', htrue, hupd', hpage⟩
  · rcases herr with herr | ⟨nsm, hsel', htrue, hupd'⟩
    · rw [hsel] at herr; simp at herr
    · rw [hsel] at hsel'; injection hsel' with h; subst h
      rw [hcur, hupd] at hupd'; simp at hupd'
  · rw [hsel] at hsel'; injection hsel' with h; subst h
    rw [hcur, hb] at hfalse; simp at hfalse
  · rw [hsel] at hsel'; injection hsel' with h; subst h
    rw [hcur, hupd] at hupd'; injection hupd' with h2; subst h2
    exact hpage

/-- The token of the C8 counterexample: all three sort methods already
tried, the first two of the demo reviews already seen. -/
def c8Token : String :=
  encodeTokenJson (chunkTokenJson "highest_rating"
    (.arr [.str "most_relevant", .str "newest", .str "highest_rating"])
    [.str "a_t1", .str "b_t2"] (.num 0) none)

/-- The page of the C8 counterexample. -/
def c8Page : ReviewPage :=
  getReviewsChunked (fun _ => ⟨true, demoReviews, none⟩) none none (some c8Token)
    demoSummary

set_option maxRecDepth 8192 in
/--
C8 counterexample: a call whose token has all three sort methods tried
and two of the three fetched reviews already seen emits one review, the
unique yield of the fetch is also one review, and no sort method
remains untried after the call — the claimed right-hand side is false —
yet `hasMoreReviews` is true, because the code compares the emitted
count against the raw fetched count (3), not against the unique yield.
-/
theorem chunk_hasMore_counterexample :
    Option.map Pagination.hasMoreReviews c8Page.pagination = some true ∧
    c8Page.results.length = 1 ∧
    (demoReviews.filter fun r =>
      !((decodeChunkState (some c8Token) none).reviewIds.contains (Json.str (reviewKey r)) ||
        ratingBelowJs r.rating (decodeChunkState (some c8Token) none).minimumRating)).length
      = 1 ∧
    (¬ ∃ m ∈ allSortMethods,
      Json.str m ∉
        chunkFetchedAfter [.str "most_relevant", .str "newest", .str "highest_rating"]) ∧
    (decodeChunkState (some c8Token) none).fetchedMethods =
      .arr [.str "most_relevant", .str "newest", .str "highest_rating"] := by
  refine ⟨rfl, rfl, rfl, by decide, rfl⟩

/--
C8 amended: in chunked mode, on an array-valued `fetchedMethods` token
state with a successful fetch, `hasMoreReviews` is true exactly when a
sort method remains untried after this call, or the page emitted fewer
reviews than the just-fetched sort order returned in total (raw fetch
count, including already-seen and rating-filtered reviews).
-/
theorem chunk_hasMore_characterization (f : String → FetchResult) (maxR : Option Nat)
    (optMinR : Option Int) (tok : Option String) (summary : PlaceSummary) (ms : List Json)
    (hfm : (decodeChunkState tok optMinR).fetchedMethods = .arr ms)
    (hb : (f (chunkCurrent ms)).success = true) :
    ∃ pg : Pagination,
      (getReviewsChunked f maxR optMinR tok summary).pagination = some pg ∧
      (pg.hasMoreReviews = true ↔
        (∃ m ∈ allSortMethods, Json.str m ∉ chunkFetchedAfter ms) ∨
        (getReviewsChunked f maxR optMinR tok summary).results.length <
          (f (chunkCurrent ms)).results.length) := by
  rw [getReviewsChunked_arr f maxR optMinR tok summary ms hfm hb]
  refine ⟨_, rfl, ?_⟩
  simp only [chunkSuccessPage, chunkCurrent, Bool.or_eq_true, decide_eq_true_eq]
  rw [nsm_length_iff_untried]

/-- Witness for C8 at the fresh state (empty `fetchedMethods`) and a
constant successful fetch of the three demo reviews. -/
theorem chunk_hasMore_characterization_witness :
    ∃ pg : Pagination,
      (getReviewsChunked (fun _ => ⟨true, demoReviews, none⟩) none none none
        demoSummary).pagination = some pg ∧
      (pg.hasMoreReviews = true ↔
        (∃ m ∈ allSortMethods, Json.str m ∉ chunkFetchedAfter []) ∨
        (getReviewsChunked (fun _ => ⟨true, demoReviews, none⟩) none none none
          demoSummary).results.length <
          (demoReviews : List Review).length) :=
  chunk_hasMore_characterization (fun _ => ⟨true, demoReviews, none⟩) none none none
    demoSummary [] (by rfl) (by rfl)

/-! ### C9: no re-emission along a chunked continuation chain -/

theorem mem_dedupJsonGo (x : Json) :
    ∀ (l seen : List Json), x ∈ dedupJsonGo seen l ↔ x ∈ l ∧ x ∉ seen := by
  intro l
  induction l with
  | nil => intro seen; simp [dedupJsonGo]
  | cons y ys ih =>
    intro seen
    simp only [dedupJsonGo]
    by_cases hc : seen.contains y = true
    · rw [if_pos hc, ih seen]
      have hy : y ∈ seen := by simpa [List.elem_iff] using hc
      constructor
      · rintro ⟨hxy, hxs⟩; exact ⟨List.mem_cons_of_mem _ hxy, hxs⟩
      · rintro ⟨hxy, hxs⟩
        rcases List.mem_cons.mp hxy with rfl | h
        · exact absurd hy hxs
        · exact ⟨h, hxs⟩
    · rw [if_neg hc]
      have hy : y ∉ seen := by simpa [List.elem_iff] using hc
      constructor
      · intro hx
        rcases List.mem_cons.mp hx with rfl | hx'
        · exact ⟨List.mem_cons_self _ _, hy⟩
        · rw [ih (y :: seen)] at hx'
          obtain ⟨h1, h2⟩ := hx'
          exact ⟨List.mem_cons_of_mem _ h1, fun hxs => h2 (List.mem_cons_of_mem _ hxs)⟩
      · rintro ⟨hxy, hxs⟩
        rcases List.mem_cons.mp hxy with rfl | h
        · exact List.mem_cons_self _ _
        · by_cases hxy' : x = y
          · rw [hxy']; exact List.mem_cons_self _ _
          · refine List.mem_cons_of_mem _ ?_
            rw [ih (y :: seen)]
            refine ⟨h, fun hx' => ?_⟩
            rcases List.mem_cons.mp hx' with h2 | h2
            · exact hxy' h2
            · exact hxs h2

/-- Iterating `new Set(l)` visits exactly the elements of `l`. -/
theorem mem_dedupJson (x : Json) (l : List Json) : x ∈ dedupJson l ↔ x ∈ l := by
  unfold dedupJson
  rw [mem_dedupJsonGo]
  simp

/-- Every review the collection loop emits was absent from the incoming
seen-key set. -/
theorem chunkLoop_emitted_not_seen (minR : Option Json) :
    ∀ (rs : List Review) (ids : List Json) (slots : Nat) (r : Review),
      r ∈ (chunkLoop minR rs ids slots).1 → Json.str (reviewKey r) ∉ ids := by
  intro rs
  induction rs with
  | nil => intro ids slots r hr; simp [chunkLoop] at hr
  | cons r0 rs ih =>
    intro ids slots r hr
    simp only [chunkLoop] at hr
    by_cases hc : ids.contains (Json.str (reviewKey r0)) = true
    · rw [if_pos hc] at hr
      exact ih ids slots r hr
    · rw [if_neg hc] at hr
      by_cases hrb : ratingBelowJs r0.rating minR = true
      · rw [if_pos hrb] at hr
        exact ih ids slots r hr
      · rw [if_neg hrb] at hr
        by_cases hsl : slots ≤ 1
        · rw [if_pos hsl] at hr
          simp at hr
          rw [hr]
          intro hmem
          exact hc (by simp [List.elem_iff, hmem])
        · rw [if_neg hsl] at hr
          simp at hr
          rcases hr with rfl | hr
          · intro hmem
            exact hc (by simp [List.elem_iff, hmem])
          · have h := ih (ids ++ [Json.str (reviewKey r0)]) (slots - 1) r hr
            intro hmem
            exact h (by simp [hmem])

/-- The seen-key set the collection loop hands back is the incoming one
extended by exactly the keys of the emitted reviews, in order. -/
theorem chunkLoop_ids (minR : Option Json) :
    ∀ (rs : List Review) (ids : List Json) (slots : Nat),
      (chunkLoop minR rs ids slots).2 =
        ids ++ ((chunkLoop minR rs ids slots).1.map fun r => Json.str (reviewKey r)) := by
  intro rs
  induction rs with
  | nil => intro ids slots; simp [chunkLoop]
  | cons r0 rs ih =>
    intro ids slots
    simp only [chunkLoop]
    by_cases hc : ids.contains (Json.str (reviewKey r0)) = true
    · rw [if_pos hc]
      exact ih ids slots
    · rw [if_neg hc]
      by_cases hrb : ratingBelowJs r0.rating minR = true
      · rw [if_pos hrb]
        exact ih ids slots
      · rw [if_neg hrb]
        by_cases hsl : slots ≤ 1
        · rw [if_pos hsl]
          simp
        · rw [if_neg hsl]
          have h := ih (ids ++ [Json.str (reviewKey r0)]) (slots - 1)
          simp [h]

theorem getProp_chunkTokenJson (sm : String) (fm : Json) (ids : List Json) (lrt : Json)
    (minR : Option Json) :
    (chunkTokenJson sm fm ids lrt minR).getProp "sortMethod" = some (.str sm) ∧
    (chunkTokenJson sm fm ids lrt minR).getProp "fetchedMethods" = some fm ∧
    (chunkTokenJson sm fm ids lrt minR).getProp "reviewIds" = some (.arr ids) ∧
    (chunkTokenJson sm fm ids lrt minR).getProp "lastReviewTime" = some lrt ∧
    (chunkTokenJson sm fm ids lrt minR).getProp "minimumRating" = minR := by
  cases minR <;> exact ⟨rfl, rfl, rfl, rfl, rfl⟩

/-- Decoding an emitted chunk token recovers as seen-key set exactly the
(`Set`-deduplicated) serialized `reviewIds`. -/
theorem decodeChunkState_chunkToken_reviewIds (sm : String) (fm : Json) (ids : List Json)
    (lrt : Json) (minR : Option Json) (optMinR : Option Int) :
    (decodeChunkState (some (encodeTokenJson (chunkTokenJson sm fm ids lrt minR)))
      optMinR).reviewIds = dedupJson ids := by
  obtain ⟨g1, g2, g3, g4, g5⟩ := getProp_chunkTokenJson sm fm ids lrt minR
  have hstep : ∀ tok : String, decodeChunkState (some tok) optMinR =
      (match decodeTokenJson tok with
       | none => defaultChunkState optMinR
       | some j =>
         match jsNewSet (jsOr (j.getProp "reviewIds") (.arr [])) with
         | .error _ => defaultChunkState optMinR
         | .ok ids =>
           { sortMethod := jsOr (j.getProp "sortMethod") (.str "most_relevant"),
             fetchedMethods := jsOr (j.getProp "fetchedMethods") (.arr []),
             reviewIds := ids,
             lastReviewTime := jsOr (j.getProp "lastReviewTime") (.num 0),
             minimumRating := j.getProp "minimumRating" }) := fun _ => rfl
  rw [hstep, decodeTokenJson_encode]
  simp [g3, jsOr, jsNewSet, Json.truthy]

/-- One call skips everything in the incoming cursor's seen-key set,
provided failed fetches carry no results (as `fetchReviewsWithSort`
guarantees). -/
theorem chunk_page_skip (f : String → FetchResult) (maxR : Option Nat) (optMinR : Option Int)
    (tok : Option String) (summary : PlaceSummary)
    (hfail : ∀ m, (f m).success = false → (f m).results = []) :
    ∀ r ∈ (getReviewsChunked f maxR optMinR tok summary).results,
      Json.str (reviewKey r) ∉ (decodeChunkState tok optMinR).reviewIds := by
  rcases getReviewsChunked_shape f maxR optMinR tok summary with
    ⟨_, hpage⟩ | ⟨nsm, _, hfalse, hpage⟩ | ⟨nsm, fm2, _, _, _, hpage⟩
  · intro r hr
    rw [hpage] at hr
    simp [typeErrorPage] at hr
  · intro r hr
    rw [hpage] at hr
    have hr' : r ∈ (f (nsm.headD "most_relevant")).results := hr
    rw [hfail _ hfalse] at hr'
    exact absurd hr' (List.not_mem_nil r)
  · intro r hr
    rw [hpage] at hr
    simp only [chunkSuccessPage] at hr
    exact chunkLoop_emitted_not_seen _ _ _ _ r hr

/-- The seen-key set decoded from an emitted cursor consists of the
incoming seen keys together with the keys emitted on this page. -/
theorem chunk_page_token (f : String → FetchResult) (maxR : Option Nat) (optMinR : Option Int)
    (tok : Option String) (summary : PlaceSummary) (pg : Pagination) (t : String)
    (hpg : (getReviewsChunked f maxR optMinR tok summary).pagination = some pg)
    (ht : pg.nextPageToken = some t) :
    (decodeChunkState (some t) optMinR).reviewIds =
      dedupJson ((decodeChunkState tok optMinR).reviewIds ++
        ((getReviewsChunked f maxR optMinR tok summary).results.map
          fun r => Json.str (reviewKey r))) := by
  rcases getReviewsChunked_shape f maxR optMinR tok summary with
    ⟨_, hpage⟩ | ⟨nsm, _, _, hpage⟩ | ⟨nsm, fm2, _, _, _, hpage⟩
  · rw [hpage] at hpg
    simp [typeErrorPage] at hpg
  · rw [hpage] at hpg
    simp at hpg
  · rw [hpage] at hpg
    simp only [chunkSuccessPage] at hpg
    injection hpg with hpg'
    rw [← hpg'] at ht
    by_cases hhm : (decide (1 < nsm.length) ||
        decide ((chunkLoop (decodeChunkState tok optMinR).minimumRating
          (f (nsm.headD "most_relevant")).results
          (decodeChunkState tok optMinR).reviewIds (effectivePageSize maxR)).1.length <
          (f (nsm.headD "most_relevant")).results.length)) = true
    · rw [if_pos hhm] at ht
      injection ht with ht'
      rw [← ht', decodeChunkState_chunkToken_reviewIds, hpage]
      simp only [chunkSuccessPage]
      exact congrArg dedupJson (chunkLoop_ids _ _ _ _)
    · rw [if_neg hhm] at ht
      cases ht

/-- The pages of a chunked continuation chain: each call follows the
cursor emitted by the previous one; a call that emits no cursor (or
fails) ends the chain. -/
def chunkChainPages (maxR : Option Nat) (optMinR : Option Int) (summary : PlaceSummary) :
    List (String → FetchResult) → Option String → List (List Review)
  | [], _ => []
  | f :: fs, tok =>
    match (getReviewsChunked f maxR optMinR tok summary).pagination with
    | none => [(getReviewsChunked f maxR optMinR tok summary).results]
    | some pg =>
      match pg.nextPageToken with
      | none => [(getReviewsChunked f maxR optMinR tok summary).results]
      | some t =>
        (getReviewsChunked f maxR optMinR tok summary).results ::
          chunkChainPages maxR optMinR summary fs (some t)

theorem chunkChain_strong (maxR : Option Nat) (optMinR : Option Int)
    (summary : PlaceSummary) :
    ∀ (fs : List (String → FetchResult)) (tok : Option String),
      (∀ f ∈ fs, ∀ m, (f m).success = false → (f m).results = []) →
      List.Pairwise (fun P Q => ∀ r1 ∈ P, ∀ r2 ∈ Q, reviewKey r1 ≠ reviewKey r2)
        (chunkChainPages maxR optMinR summary fs tok) ∧
      (∀ P ∈ chunkChainPages maxR optMinR summary fs tok, ∀ r ∈ P,
        Json.str (reviewKey r) ∉ (decodeChunkState tok optMinR).reviewIds) := by
  intro fs
  induction fs with
  | nil =>
    intro tok _
    constructor
    · simp [chunkChainPages]
    · intro P hP
      simp [chunkChainPages] at hP
  | cons f fs ih =>
    intro tok hfail
    have hfailf : ∀ m, (f m).success = false → (f m).results = [] :=
      hfail f (List.mem_cons_self _ _)
    have hfails : ∀ g ∈ fs, ∀ m, (g m).success = false → (g m).results = [] :=
      fun g hg => hfail g (List.mem_cons_of_mem _ hg)
    have hskip := chunk_page_skip f maxR optMinR tok summary hfailf
    cases hpg : (getReviewsChunked f maxR optMinR tok summary).pagination with
    | none =>
      have hchain : chunkChainPages maxR optMinR summary (f :: fs) tok =
          [(getReviewsChunked f maxR optMinR tok summary).results] := by
        simp only [chunkChainPages]
        rw [hpg]
      rw [hchain]
      constructor
      · simp
      · intro P hP r hr
        rw [List.mem_singleton] at hP
        rw [hP] at hr
        exact hskip r hr
    | some pg =>
      cases ht : pg.nextPageToken with
      | none =>
        have hchain : chunkChainPages maxR optMinR summary (f :: fs) tok =
            [(getReviewsChunked f maxR optMinR tok summary).results] := by
          simp only [chunkChainPages]
          rw [hpg]
          simp only []
          rw [ht]
        rw [hchain]
        constructor
        · simp
        · intro P hP r hr
          rw [List.mem_singleton] at hP
          rw [hP] at hr
          exact hskip r hr
      | some t =>
        have hchain : chunkChainPages maxR optMinR summary (f :: fs) tok =
            (getReviewsChunked f maxR optMinR tok summary).results ::
              chunkChainPages maxR optMinR summary fs (some t) := by
          simp only [chunkChainPages]
          rw [hpg]
          simp only []
          rw [ht]
        have htok := chunk_page_token f maxR optMinR tok summary pg t hpg ht
        obtain ⟨ihp, ihm⟩ := ih (some t) hfails
        have hsub : ∀ x : Json,
            (x ∈ (decodeChunkState tok optMinR).reviewIds ∨
              ∃ r ∈ (getReviewsChunked f maxR optMinR tok summary).results,
                x = Json.str (reviewKey r)) →
            x ∈ (decodeChunkState (some t) optMinR).reviewIds := by
          intro x hx
          rw [htok, mem_dedupJson, List.mem_append]
          rcases hx with hx | ⟨r, hr, rfl⟩
          · exact Or.inl hx
          · exact Or.inr (List.mem_map_of_mem _ hr)
        rw [hchain]
        constructor
        · rw [List.pairwise_cons]
          refine ⟨?_, ihp⟩
          intro Q hQ r1 hr1 r2 hr2
          have h2 := ihm Q hQ r2 hr2
          have h1 : Json.str (reviewKey r1) ∈ (decodeChunkState (some t) optMinR).reviewIds :=
            hsub _ (Or.inr ⟨r1, hr1, rfl⟩)
          intro heq
          rw [heq] at h1
          exact h2 h1
        · intro P hP r hr
          rcases List.mem_cons.mp hP with hP' | hP'
          · rw [hP'] at hr
            exact hskip r hr
          · have h := ihm P hP' r hr
            intro hmem
            exact h (hsub _ (Or.inl hmem))

/--
C9: along any chunked continuation chain (each call resuming from the
cursor emitted by the previous one, failed fetches carrying no results
as `fetchReviewsWithSort` guarantees), the pages are pairwise disjoint
in identity keys; moreover every single call skips exactly the reviews
whose key is in the incoming cursor's seen-key set, and the cursor it
emits decodes to a seen-key set containing the incoming keys and every
key emitted on this page.
-/
theorem chunk_chain_no_reemission (maxR : Option Nat) (optMinR : Option Int)
    (summary : PlaceSummary) :
    (∀ fs : List (String → FetchResult),
      (∀ f ∈ fs, ∀ m, (f m).success = false → (f m).results = []) →
      List.Pairwise (fun P Q => ∀ r1 ∈ P, ∀ r2 ∈ Q, reviewKey r1 ≠ reviewKey r2)
        (chunkChainPages maxR optMinR summary fs none)) ∧
    (∀ (f : String → FetchResult) (tok : Option String),
      (∀ m, (f m).success = false → (f m).results = []) →
      ∀ r ∈ (getReviewsChunked f maxR optMinR tok summary).results,
        Json.str (reviewKey r) ∉ (decodeChunkState tok optMinR).reviewIds) ∧
    (∀ (f : String → FetchResult) (tok : Option String) (pg : Pagination) (t : String),
      (getReviewsChunked f maxR optMinR tok summary).pagination = some pg →
      pg.nextPageToken = some t →
      ∀ x : Json, (x ∈ (decodeChunkState tok optMinR).reviewIds ∨
        ∃ r ∈ (getReviewsChunked f maxR optMinR tok summary).results,
          x = Json.str (reviewKey r)) →
        x ∈ (decodeChunkState (some t) optMinR).reviewIds) := by
  refine ⟨fun fs hfail => (chunkChain_strong maxR optMinR summary fs none hfail).1,
    fun f tok hfail => chunk_page_skip f maxR optMinR tok summary hfail,
    fun f tok pg t hpg ht x hx => ?_⟩
  rw [chunk_page_token f maxR optMinR tok summary pg t hpg ht, mem_dedupJson,
    List.mem_append]
  rcases hx with hx | ⟨r, hr, rfl⟩
  · exact Or.inl hx
  · exact Or.inr (List.mem_map_of_mem _ hr)

/-- Witness for C9 on a two-call chain with a constant successful fetch
of the three demo reviews. -/
theorem chunk_chain_no_reemission_witness :
    List.Pairwise (fun P Q => ∀ r1 ∈ P, ∀ r2 ∈ Q, reviewKey r1 ≠ reviewKey r2)
      (chunkChainPages none none demoSummary
        [fun _ => ⟨true, demoReviews, none⟩, fun _ => ⟨true, demoReviews, none⟩] none) :=
  (chunk_chain_no_reemission none none demoSummary).1
    [fun _ => ⟨true, demoReviews, none⟩, fun _ => ⟨true, demoReviews, none⟩]
    (by
      intro g hg m hm
      simp at hg
      rcases hg with rfl | rfl <;> simp at hm)

end GeoSvc
